import Mathlib

/-!
Shallow embedding of the binary structural patcher in `tools/create_zone.py`:
the quad locator/resizer, the two timing-patcher modes with their shared
sequence-descriptor update, and the texture slot rewriter.  Byte buffers are
`List ℕ` (one entry per byte); Python's in-place mutation becomes explicit
state passing, each operation returning the resulting buffer together with an
`Except` result.  Python `struct` errors (out-of-range pack/unpack, float32
overflow) are modelled as error outcomes.
-/

namespace CreateZone

/-- Offset of the u32 sequence count / u32 sequence array offset pair. -/
def SEQ_ARRAY_META_OFF : ℕ := 28

/-- Offset of the subordinate timing array (5 × u32). -/
def TIMING_ARRAY_OFF : ℕ := 0xAE0

/-- Bytes per vertex record. -/
def M2_VERTEX_STRIDE : ℕ := 48

/-- Offset of the texture string slot. -/
def TEXTURE_NAME_OFF : ℕ := 0xA90

/-- Error outcomes of the patch operations: `notFound` for a missing signature
or sequence entry (Python `RuntimeError`), `invalidArgument` for a bad
timestamp count or over-long texture name (Python `ValueError` /
`RuntimeError`), `structError` for out-of-range `struct` packing,
`encodeError` for non-ASCII text, `overflow` for float32 overflow. -/
inductive Err where
  | notFound
  | invalidArgument
  | structError
  | encodeError
  | overflow
  deriving DecidableEq, Repr

/-! ## IEEE-754 binary32 little-endian encoding of exact rational values

`struct.pack("<f", x)` converts the (exactly representable) input to the
nearest binary32 value, ties to even, raising `OverflowError` when the result
would exceed the finite range.  The input values (Python doubles) are embedded
as exact rationals. -/

/-- Fuelled floor-log₂ worker. -/
def floorLog2Go : ℕ → ℕ → ℕ
  | 0, _ => 0
  | fuel + 1, n => if 2 ≤ n then floorLog2Go fuel (n / 2) + 1 else 0

/-- Floor of log₂ on naturals (0 for inputs below 2). -/
def natLog2 (n : ℕ) : ℕ := floorLog2Go n n

/-- The rational 2^e for an integer exponent. -/
def qpow2 (e : ℤ) : ℚ :=
  if 0 ≤ e then ((2 ^ e.toNat : ℕ) : ℚ) else (1 : ℚ) / ((2 ^ (-e).toNat : ℕ) : ℚ)

/-- Floor of log₂ of a positive rational: the unique `e` with
`2^e ≤ a < 2^(e+1)`. -/
def floorLog2 (a : ℚ) : ℤ :=
  let e0 : ℤ := (natLog2 a.num.natAbs : ℤ) - (natLog2 a.den : ℤ)
  if a < qpow2 e0 then e0 - 1 else e0

/-- Round a rational to the nearest integer, ties to even. -/
def rne (q : ℚ) : ℤ :=
  let f : ℤ := q.floor
  let r : ℚ := q - (f : ℚ)
  if r < 1 / 2 then f
  else if 1 / 2 < r then f + 1
  else if f % 2 = 0 then f else f + 1

/-- Little-endian byte quadruple of a 32-bit word. -/
def leBytes4 (w : ℕ) : List ℕ :=
  [w % 256, w / 256 % 256, w / 65536 % 256, w / 16777216 % 256]

/-- Assemble sign, exponent field and mantissa field into binary32 bytes. -/
def f32bits (s expF mant : ℕ) : List ℕ :=
  leBytes4 (s * 2 ^ 31 + expF * 2 ^ 23 + mant)

/-- Encode a rational as a little-endian binary32, round to nearest, ties to
even; `none` models `struct.pack` raising `OverflowError`. -/
def encf32 (q : ℚ) : Option (List ℕ) :=
  if q = 0 then some (f32bits 0 0 0)
  else
    let s : ℕ := if q < 0 then 1 else 0
    let a : ℚ := if q < 0 then -q else q
    let e : ℤ := floorLog2 a
    if e ≤ -127 then
      let m : ℤ := rne (a * qpow2 149)
      if 2 ^ 23 ≤ m then some (f32bits s 1 0)
      else some (f32bits s 0 m.toNat)
    else
      let m : ℤ := rne (a * qpow2 (23 - e))
      if m = 2 ^ 24 then
        if 127 < e + 1 then none else some (f32bits s (e + 1 + 127).toNat 0)
      else if 127 < e then none
      else some (f32bits s (e + 127).toNat (m - 2 ^ 23).toNat)

/-- `struct.pack("<3f", x, y, z)`. -/
def pack3f (x y z : ℚ) : Option (List ℕ) :=
  match encf32 x, encf32 y, encf32 z with
  | some a, some b, some c => some (a ++ b ++ c)
  | _, _, _ => none

/-! ## Byte-buffer primitives -/

/-- Python `data[off:off+len(bts)] = bts` on a bytearray: splice `bts` over
the slice, extending the buffer when the slice runs past the end. -/
def write_bytes (data : List ℕ) (off : ℕ) (bts : List ℕ) : List ℕ :=
  data.take off ++ bts ++ data.drop (off + bts.length)

/-- `struct.unpack_from("<I", data, off)`: `none` when fewer than 4 bytes are
available (Python `struct.error`). -/
def read_u32 (data : List ℕ) (off : ℕ) : Option ℕ :=
  if off + 4 ≤ data.length then
    some (data.getD off 0 + 256 * data.getD (off + 1) 0 +
      65536 * data.getD (off + 2) 0 + 16777216 * data.getD (off + 3) 0)
  else none

/-- Little-endian bytes of a 32-bit value. -/
def u32le (v : ℕ) : List ℕ := [v % 256, v / 256 % 256, v / 65536 % 256, v / 16777216 % 256]

/-- `struct.pack_into("<I", data, off, val)`: `none` when the value is out of
u32 range or the buffer is too short (Python `struct.error`). -/
def write_u32 (data : List ℕ) (off : ℕ) (val : ℤ) : Option (List ℕ) :=
  if 0 ≤ val ∧ val < 2 ^ 32 ∧ off + 4 ≤ data.length then
    some (write_bytes data off (u32le val.toNat))
  else none

/-- `read_str`: bytes from `off` up to the first null byte, non-ASCII bytes
dropped (`decode('ascii', errors='ignore')`); when no null byte follows
`off`, Python's `find` returns −1 and the slice `data[off:-1]` drops the
final byte instead. -/
def read_str (data : List ℕ) (off : ℕ) : List ℕ :=
  let tail := data.drop off
  let raw := if tail.contains 0 then tail.takeWhile (fun b => b ≠ 0) else tail.dropLast
  raw.filter (fun b => b < 128)

/-- Index of the first occurrence of `pat` as a contiguous run in `data`,
Python `bytes.find`. -/
def findPat : List ℕ → List ℕ → Option ℕ
  | data, pat =>
    if pat.isPrefixOf data then some 0
    else
      match data with
      | [] => none
      | _ :: rest => (findPat rest pat).map (· + 1)

/-! ## Quad locator/resizer -/

/-- Write each listed vertex position (already paired with its index) at the
matching stride offset; stops at the first float32 overflow. -/
def writeVerts (idx : ℕ) : List ℕ → List (ℕ × (ℚ × ℚ × ℚ)) → List ℕ × Bool
  | data, [] => (data, true)
  | data, (i, (x, y, z)) :: rest =>
    match pack3f x y z with
    | none => (data, false)
    | some b => writeVerts idx (write_bytes data (idx + i * M2_VERTEX_STRIDE) b) rest

/-- `resize_quad`: locate the `(−orig_half, −orig_half, 0)` float32 signature
and overwrite the four vertex positions of the quad with a square of the
given diameter. -/
def resize_quad (data : List ℕ) (diameter orig_half : ℚ) :
    List ℕ × Except Err (ℕ × List (ℚ × ℚ × ℚ)) :=
  match pack3f (-orig_half) (-orig_half) 0 with
  | none => (data, Except.error Err.overflow)
  | some pat =>
    match findPat data pat with
    | none => (data, Except.error Err.notFound)
    | some idx =>
      let half := diameter / 2
      let positions : List (ℚ × ℚ × ℚ) :=
        [(-half, -half, 0), (half, -half, 0), (-half, half, 0), (half, half, 0)]
      match writeVerts idx data positions.enum with
      | (d, true) => (d, Except.ok (idx, positions))
      | (d, false) => (d, Except.error Err.overflow)

/-! ## Timing patcher -/

/-- Write a list of u32 timestamps at consecutive offsets; on a failed write
the buffer written so far is returned with `false`. -/
def writeTimes : List ℕ → ℕ → List ℤ → List ℕ × Bool
  | data, _, [] => (data, true)
  | data, off, t :: rest =>
    match write_u32 data off t with
    | none => (data, false)
    | some d => writeTimes d (off + 4) rest

/-- Shared tail of both timing modes: read the sequence count and array
offset, fail with `notFound` when no sequence is present, then write the
start and end times into the sequence descriptor. -/
def seq_update (data : List ℕ) (t0 t4 : ℤ) : List ℕ × Except Err ℕ :=
  match read_u32 data SEQ_ARRAY_META_OFF with
  | none => (data, Except.error Err.structError)
  | some cnt =>
    match read_u32 data (SEQ_ARRAY_META_OFF + 4) with
    | none => (data, Except.error Err.structError)
    | some seq_ofs =>
      if cnt < 1 ∨ seq_ofs = 0 then (data, Except.error Err.notFound)
      else
        match write_u32 data (seq_ofs + 4) t0 with
        | none => (data, Except.error Err.structError)
        | some d1 =>
          match write_u32 d1 (seq_ofs + 8) t4 with
          | none => (d1, Except.error Err.structError)
          | some d2 => (d2, Except.ok seq_ofs)

/-- `patch_full_times`: explicit mode, exactly 5 timestamps written verbatim,
then the shared descriptor update. -/
def patch_full_times (data : List ℕ) (times : List ℤ) :
    List ℕ × Except Err (List ℤ × ℕ × ℤ) :=
  if times.length ≠ 5 then (data, Except.error Err.invalidArgument)
  else
    match writeTimes data TIMING_ARRAY_OFF times with
    | (d1, false) => (d1, Except.error Err.structError)
    | (d1, true) =>
      match seq_update d1 (times.getD 0 0) (times.getD 4 0) with
      | (d2, Except.error e) => (d2, Except.error e)
      | (d2, Except.ok seq_ofs) =>
        (d2, Except.ok (times, seq_ofs, times.getD 3 0 - times.getD 2 0))

/-- The five derived-mode timestamps
`[0, fade_in, 1000, 1000 + duration, 1000 + duration + fade_out]`. -/
def incremental_times (fade_in duration fade_out : ℤ) : List ℤ :=
  [0, fade_in, 1000, 1000 + duration, 1000 + duration + fade_out]

/-- `patch_incremental`: derived mode, timestamps computed from fade-in, hold
duration and fade-out, then the shared descriptor update. -/
def patch_incremental (data : List ℕ) (fade_in duration fade_out : ℤ) :
    List ℕ × Except Err (List ℤ × ℕ × ℤ) :=
  let times := incremental_times fade_in duration fade_out
  match writeTimes data TIMING_ARRAY_OFF times with
  | (d1, false) => (d1, Except.error Err.structError)
  | (d1, true) =>
    match seq_update d1 0 (1000 + duration + fade_out) with
    | (d2, Except.error e) => (d2, Except.error e)
    | (d2, Except.ok seq_ofs) => (d2, Except.ok (times, seq_ofs, duration))

/-! ## Texture slot rewriter -/

/-- Set `count` bytes to zero starting at `a`: Python
`for p in range(a, a + count): data[p] = 0`. -/
def zeroRange : List ℕ → ℕ → ℕ → List ℕ
  | data, _, 0 => data
  | data, a, k + 1 => zeroRange (data.set a 0) (a + 1) k

/-- `patch_texture`: build `SPELLS\<UPPER>.BLP`, reject base names longer
than 20 characters, write the string plus terminator into the slot and zero
the rest of the previous string's extent; returns the previous string. -/
def patch_texture (data : List ℕ) (tex_base : String) : List ℕ × Except Err (List ℕ) :=
  if 20 < tex_base.length then (data, Except.error Err.invalidArgument)
  else
    let full : String := "SPELLS\\" ++ tex_base.toUpper ++ ".BLP"
    if full.toList.any (fun c => 128 ≤ c.toNat) then (data, Except.error Err.encodeError)
    else
      let new_bytes := full.toList.map Char.toNat ++ [0]
      let old := read_str data TEXTURE_NAME_OFF
      let old_len := old.length + 1
      let d1 := write_bytes data TEXTURE_NAME_OFF new_bytes
      (zeroRange d1 (TEXTURE_NAME_OFF + new_bytes.length) (old_len - new_bytes.length),
        Except.ok old)

theorem encf32_spot_zero : encf32 0 = some [0, 0, 0, 0] := by decide

unseal Rat.mul Rat.inv Rat.add Rat.sub in
theorem encf32_spot_neg_half : encf32 (-(25 / 2 : ℚ)) = some [0, 0, 72, 193] := by decide

unseal Rat.mul Rat.inv Rat.add Rat.sub in
theorem encf32_spot_third : encf32 (1 / 3 : ℚ) = some [171, 170, 170, 62] := by decide

set_option maxRecDepth 8000 in
unseal Rat.mul Rat.inv Rat.add Rat.sub in
theorem encf32_spot_overflow : encf32 ((2 : ℚ) ^ 200) = none := by decide

/-! ## Concrete buffers used for witnesses and counterexamples -/

/-- The 12-byte float32 signature `(−12.5, −12.5, 0)`. -/
def sigBytes : List ℕ := [0, 0, 72, 193, 0, 0, 72, 193, 0, 0, 0, 0]

/-- A 192-byte buffer holding the signature at offset 0 only. -/
def quadWitBuf : List ℕ := sigBytes ++ List.replicate 180 0

/-- A 192-byte buffer holding the signature at offsets 0 and 36. -/
def quadCexBuf : List ℕ := sigBytes ++ List.replicate 24 0 ++ sigBytes ++ List.replicate 144 0

/-- A 2804-byte buffer of 7s whose sequence count and array offset are zero. -/
def timingCexBuf : List ℕ := write_bytes (List.replicate 2804 7) 28 (List.replicate 8 0)

/-- A 2804-byte buffer with sequence count 1 and sequence array offset 100. -/
def timingWitBuf : List ℕ :=
  write_bytes (write_bytes (List.replicate 2804 0) 28 [1, 0, 0, 0]) 32 [100, 0, 0, 0]

/-- ASCII bytes of the previous texture path `SPELLS\DANGERAREABLUE.BLP`. -/
def texPrevBytes : List ℕ :=
  [83, 80, 69, 76, 76, 83, 92, 68, 65, 78, 71, 69, 82, 65, 82, 69, 65, 66, 76, 85, 69,
   46, 66, 76, 80]

/-- A buffer whose texture slot at offset 0xA90 holds the previous path. -/
def texWitBuf : List ℕ :=
  List.replicate 2704 1 ++ texPrevBytes ++ [0] ++ List.replicate 50 1

/-! ## Byte-level lemmas about `write_bytes` -/

theorem length_write_bytes (data bts : List ℕ) (off : ℕ) (h : off + bts.length ≤ data.length) :
    (write_bytes data off bts).length = data.length := by
  simp only [write_bytes, List.length_append, List.length_take, List.length_drop]
  omega

theorem length_write_bytes_ge (data bts : List ℕ) (off : ℕ) :
    data.length ≤ (write_bytes data off bts).length := by
  simp only [write_bytes, List.length_append, List.length_take, List.length_drop]
  omega

theorem getD_write_bytes_lt (data bts : List ℕ) (off j : ℕ) (hj : j < off)
    (hjd : j < data.length) :
    (write_bytes data off bts).getD j 0 = data.getD j 0 := by
  have h1 : j < (data.take off).length := by
    simp only [List.length_take]; omega
  simp only [write_bytes, List.getD_eq_getElem?_getD, List.append_assoc]
  rw [List.getElem?_append_left h1, List.getElem?_take_of_lt hj]

theorem getD_write_bytes_ge (data bts : List ℕ) (off j : ℕ) (hj : off + bts.length ≤ j) :
    (write_bytes data off bts).getD j 0 = data.getD j 0 := by
  by_cases hoff : off ≤ data.length
  · have h1 : (data.take off).length = off := by
      simp only [List.length_take]; omega
    simp only [write_bytes, List.getD_eq_getElem?_getD, List.append_assoc]
    rw [List.getElem?_append_right (by omega : (data.take off).length ≤ j),
      List.getElem?_append_right (by simp only [h1]; omega : bts.length ≤ j - (data.take off).length),
      List.getElem?_drop]
    have hidx : off + bts.length + (j - (List.take off data).length - bts.length) = j := by
      rw [h1]; omega
    rw [hidx]
  · have h1 : (data.take off).length = data.length := by
      simp only [List.length_take]; omega
    have h2 : data.drop (off + bts.length) = [] := by
      apply List.drop_eq_nil_of_le; omega
    simp only [write_bytes, List.getD_eq_getElem?_getD, h2, List.append_assoc]
    rw [List.getElem?_append_right (by omega : (data.take off).length ≤ j)]
    have h3 : (bts ++ ([] : List ℕ))[j - (data.take off).length]? = none := by
      apply List.getElem?_eq_none
      simp only [List.length_append, List.length_nil, h1]
      omega
    have h4 : data[j]? = none := by
      apply List.getElem?_eq_none; omega
    rw [h3, h4]

theorem getD_write_bytes_in (data bts : List ℕ) (off k : ℕ) (hoff : off ≤ data.length)
    (hk : k < bts.length) :
    (write_bytes data off bts).getD (off + k) 0 = bts.getD k 0 := by
  have h1 : (data.take off).length = off := by
    simp only [List.length_take]; omega
  simp only [write_bytes, List.getD_eq_getElem?_getD, List.append_assoc]
  rw [List.getElem?_append_right (by omega : (data.take off).length ≤ off + k),
    List.getElem?_append_left (by simp only [h1]; omega : off + k - (data.take off).length < bts.length)]
  have hidx : off + k - (List.take off data).length = k := by
    rw [h1]; omega
  rw [hidx]

theorem eq_of_getD (l1 l2 : List ℕ) (hlen : l1.length = l2.length)
    (h : ∀ j, j < l1.length → l1.getD j 0 = l2.getD j 0) : l1 = l2 := by
  apply List.ext_getElem hlen
  intro i h1 h2
  have h3 := h i h1
  simp only [List.getD_eq_getElem?_getD, List.getElem?_eq_getElem, h1, h2,
    Option.getD_some] at h3
  exact h3

theorem write_bytes_self (data bts : List ℕ) (off : ℕ) (h : off + bts.length ≤ data.length)
    (hb : ∀ k, k < bts.length → data.getD (off + k) 0 = bts.getD k 0) :
    write_bytes data off bts = data := by
  apply eq_of_getD _ _ (length_write_bytes _ _ _ h)
  intro j hj
  rw [length_write_bytes _ _ _ h] at hj
  by_cases h1 : j < off
  · exact getD_write_bytes_lt _ _ _ _ h1 hj
  · by_cases h2 : off + bts.length ≤ j
    · exact getD_write_bytes_ge _ _ _ _ h2
    · have hje : j = off + (j - off) := by omega
      rw [hje, getD_write_bytes_in _ _ _ _ (by omega) (by omega), hb _ (by omega)]

/-! ## Lemmas about `read_u32` / `write_u32` -/

theorem length_u32le (v : ℕ) : (u32le v).length = 4 := rfl

theorem write_u32_some (data : List ℕ) (off : ℕ) (val : ℤ) (h0 : 0 ≤ val)
    (h1 : val < 2 ^ 32) (h2 : off + 4 ≤ data.length) :
    write_u32 data off val = some (write_bytes data off (u32le val.toNat)) := by
  simp only [write_u32, if_pos (And.intro h0 (And.intro h1 h2))]

theorem write_u32_eq_some (data d : List ℕ) (off : ℕ) (val : ℤ)
    (h : write_u32 data off val = some d) :
    0 ≤ val ∧ val < 2 ^ 32 ∧ off + 4 ≤ data.length ∧
      d = write_bytes data off (u32le val.toNat) := by
  by_cases hc : 0 ≤ val ∧ val < 2 ^ 32 ∧ off + 4 ≤ data.length
  · simp only [write_u32, if_pos hc, Option.some.injEq] at h
    exact ⟨hc.1, hc.2.1, hc.2.2, h.symm⟩
  · simp only [write_u32, if_neg hc] at h
    exact absurd h (by simp)

theorem read_u32_eq_of_getD (d1 d2 : List ℕ) (off : ℕ) (hlen : d1.length = d2.length)
    (h : ∀ k, k < 4 → d1.getD (off + k) 0 = d2.getD (off + k) 0) :
    read_u32 d1 off = read_u32 d2 off := by
  have h0 := h 0 (by omega)
  have h1 := h 1 (by omega)
  have h2 := h 2 (by omega)
  have h3 := h 3 (by omega)
  simp only [Nat.add_zero] at h0
  simp only [read_u32, hlen, h0, h1, h2, h3]

theorem read_u32_write_bytes_u32le (data : List ℕ) (off : ℕ) (v : ℕ)
    (h2 : off + 4 ≤ data.length) (hv : v < 2 ^ 32) :
    read_u32 (write_bytes data off (u32le v)) off = some v := by
  have hlen : (write_bytes data off (u32le v)).length = data.length :=
    length_write_bytes _ _ _ (by simp only [length_u32le]; omega)
  have g0 := getD_write_bytes_in data (u32le v) off 0 (by omega) (by simp only [length_u32le]; omega)
  have g1 := getD_write_bytes_in data (u32le v) off 1 (by omega) (by simp only [length_u32le]; omega)
  have g2 := getD_write_bytes_in data (u32le v) off 2 (by omega) (by simp only [length_u32le]; omega)
  have g3 := getD_write_bytes_in data (u32le v) off 3 (by omega) (by simp only [length_u32le]; omega)
  simp only [Nat.add_zero] at g0
  have e0 : (u32le v).getD 0 0 = v % 256 := rfl
  have e1 : (u32le v).getD 1 0 = v / 256 % 256 := rfl
  have e2 : (u32le v).getD 2 0 = v / 65536 % 256 := rfl
  have e3 : (u32le v).getD 3 0 = v / 16777216 % 256 := rfl
  rw [e0] at g0; rw [e1] at g1; rw [e2] at g2; rw [e3] at g3
  simp only [read_u32, hlen, if_pos h2, g0, g1, g2, g3, Option.some.injEq]
  omega

theorem read_u32_write_bytes_frame (data bts : List ℕ) (off off' : ℕ)
    (hd : off' + 4 ≤ off ∨ off + bts.length ≤ off') (hin : off + bts.length ≤ data.length) :
    read_u32 (write_bytes data off bts) off' = read_u32 data off' := by
  have hlen : (write_bytes data off bts).length = data.length := length_write_bytes _ _ _ hin
  by_cases hr : off' + 4 ≤ data.length
  · apply read_u32_eq_of_getD _ _ _ hlen
    intro k hk
    rcases hd with hd | hd
    · exact getD_write_bytes_lt _ _ _ _ (by omega) (by omega)
    · exact getD_write_bytes_ge _ _ _ _ (by omega)
  · simp only [read_u32, hlen, if_neg hr]

/-! ## Lemmas about `writeTimes` -/

theorem writeTimes_frame : ∀ (ts : List ℤ) (data : List ℕ) (off : ℕ) (d' : List ℕ),
    writeTimes data off ts = (d', true) →
    d'.length = data.length ∧
      ∀ j, j < data.length → (j < off ∨ off + 4 * ts.length ≤ j) →
        d'.getD j 0 = data.getD j 0 := by
  intro ts
  induction ts with
  | nil =>
    intro data off d' h
    simp only [writeTimes, Prod.mk.injEq] at h
    rw [h.1]
    exact ⟨rfl, fun j _ _ => rfl⟩
  | cons t rest ih =>
    intro data off d' h
    simp only [writeTimes] at h
    rcases hw : write_u32 data off t with _ | d1
    · rw [hw] at h; simp at h
    · rw [hw] at h
      obtain ⟨_, _, hin, hd1⟩ := write_u32_eq_some _ _ _ _ hw
      have hlen1 : d1.length = data.length := by
        rw [hd1]; exact length_write_bytes _ _ _ (by simp only [length_u32le]; omega)
      obtain ⟨hlen2, hfr⟩ := ih d1 (off + 4) d' h
      constructor
      · rw [hlen2, hlen1]
      · intro j hj hout
        rw [hfr j (by omega) (by simp only [List.length_cons] at hout ⊢; omega), hd1]
        rcases hout with hout | hout
        · exact getD_write_bytes_lt _ _ _ _ (by omega) (by omega)
        · exact getD_write_bytes_ge _ _ _ _ (by simp only [length_u32le]; simp only [List.length_cons] at hout; omega)

theorem writeTimes_spec : ∀ (ts : List ℤ) (data : List ℕ) (off : ℕ),
    (∀ t ∈ ts, 0 ≤ t ∧ t < 2 ^ 32) → off + 4 * ts.length ≤ data.length →
    ∃ d', writeTimes data off ts = (d', true) ∧
      (∀ i, i < ts.length → read_u32 d' (off + 4 * i) = some (ts.getD i 0).toNat) := by
  intro ts
  induction ts with
  | nil =>
    intro data off _ _
    exact ⟨data, rfl, fun i hi => absurd hi (by simp)⟩
  | cons t rest ih =>
    intro data off hb hin
    simp only [List.length_cons] at hin
    have hbt := hb t (List.mem_cons_self t rest)
    have hw : write_u32 data off t = some (write_bytes data off (u32le t.toNat)) :=
      write_u32_some _ _ _ hbt.1 hbt.2 (by omega)
    have hlen1 : (write_bytes data off (u32le t.toNat)).length = data.length :=
      length_write_bytes _ _ _ (by simp only [length_u32le]; omega)
    obtain ⟨d', hrun, hread⟩ := ih (write_bytes data off (u32le t.toNat)) (off + 4)
      (fun x hx => hb x (List.mem_cons_of_mem _ hx)) (by omega)
    refine ⟨d', ?_, ?_⟩
    · simp only [writeTimes, hw, hrun]
    · intro i hi
      match i with
      | 0 =>
        obtain ⟨hlen2, hfr⟩ := writeTimes_frame _ _ _ _ hrun
        have : read_u32 d' off = read_u32 (write_bytes data off (u32le t.toNat)) off := by
          apply read_u32_eq_of_getD _ _ _ hlen2
          intro k hk
          exact hfr _ (by omega) (by omega)
        simp only [Nat.mul_zero, Nat.add_zero, this]
        have htN : t.toNat < 2 ^ 32 := by omega
        simpa using read_u32_write_bytes_u32le data off t.toNat (by omega) htN
      | Nat.succ i' =>
        have := hread i' (by simp only [List.length_cons] at hi; omega)
        have harith : off + 4 + 4 * i' = off + 4 * (i' + 1) := by omega
        rw [harith] at this
        simpa using this

theorem writeTimes_getD_indep : ∀ (ts : List ℤ) (x y : List ℕ) (off : ℕ) (x' y' : List ℕ),
    writeTimes x off ts = (x', true) → writeTimes y off ts = (y', true) →
    ∀ j, off ≤ j → j < off + 4 * ts.length → x'.getD j 0 = y'.getD j 0 := by
  intro ts
  induction ts with
  | nil =>
    intro x y off x' y' hx hy j hj1 hj2
    simp only [List.length_nil] at hj2
    omega
  | cons t rest ih =>
    intro x y off x' y' hx hy j hj1 hj2
    simp only [writeTimes] at hx hy
    rcases hwx : write_u32 x off t with _ | x1
    · rw [hwx] at hx; simp at hx
    rcases hwy : write_u32 y off t with _ | y1
    · rw [hwy] at hy; simp at hy
    rw [hwx] at hx; rw [hwy] at hy
    obtain ⟨_, _, hinx, hdx⟩ := write_u32_eq_some _ _ _ _ hwx
    obtain ⟨_, _, hiny, hdy⟩ := write_u32_eq_some _ _ _ _ hwy
    by_cases hj3 : j < off + 4
    · obtain ⟨hlx, hfx⟩ := writeTimes_frame _ _ _ _ hx
      obtain ⟨hly, hfy⟩ := writeTimes_frame _ _ _ _ hy
      have hx1 : x1.length = x.length := by
        rw [hdx]; exact length_write_bytes _ _ _ (by simp only [length_u32le]; omega)
      have hy1 : y1.length = y.length := by
        rw [hdy]; exact length_write_bytes _ _ _ (by simp only [length_u32le]; omega)
      rw [hfx j (by omega) (by omega), hfy j (by omega) (by omega), hdx, hdy]
      have hje : j = off + (j - off) := by omega
      rw [hje, getD_write_bytes_in _ _ _ _ (by omega) (by simp only [length_u32le]; omega),
        getD_write_bytes_in _ _ _ _ (by omega) (by simp only [length_u32le]; omega)]
    · exact ih x1 y1 (off + 4) x' y' hx hy j (by omega)
        (by simp only [List.length_cons] at hj2; omega)

theorem writeTimes_some_of_length : ∀ (ts : List ℤ) (x y : List ℕ) (off : ℕ) (x' : List ℕ),
    writeTimes x off ts = (x', true) → y.length = x.length →
    ∃ y', writeTimes y off ts = (y', true) := by
  intro ts
  induction ts with
  | nil =>
    intro x y off x' _ _
    exact ⟨y, rfl⟩
  | cons t rest ih =>
    intro x y off x' hx hlen
    simp only [writeTimes] at hx ⊢
    rcases hwx : write_u32 x off t with _ | x1
    · rw [hwx] at hx; simp at hx
    rw [hwx] at hx
    obtain ⟨hb0, hb1, hinx, hdx⟩ := write_u32_eq_some _ _ _ _ hwx
    have hwy : write_u32 y off t = some (write_bytes y off (u32le t.toNat)) :=
      write_u32_some _ _ _ hb0 hb1 (by omega)
    have hx1 : x1.length = x.length := by
      rw [hdx]; exact length_write_bytes _ _ _ (by simp only [length_u32le]; omega)
    have hy1 : (write_bytes y off (u32le t.toNat)).length = y.length :=
      length_write_bytes _ _ _ (by simp only [length_u32le]; omega)
    obtain ⟨y', hy'⟩ := ih x1 (write_bytes y off (u32le t.toNat)) (off + 4) x' hx (by omega)
    exact ⟨y', by simp only [hwy, hy']⟩

/-! ## Lemmas about `seq_update` and the two timing modes -/

theorem seq_update_spec (data : List ℕ) (t0 t4 : ℤ) (cnt s : ℕ)
    (h28 : read_u32 data SEQ_ARRAY_META_OFF = some cnt)
    (h32 : read_u32 data (SEQ_ARRAY_META_OFF + 4) = some s)
    (hcnt : 1 ≤ cnt) (hs : s ≠ 0)
    (h0 : 0 ≤ t0) (h0b : t0 < 2 ^ 32) (h4 : 0 ≤ t4) (h4b : t4 < 2 ^ 32)
    (hsl : s + 12 ≤ data.length) :
    seq_update data t0 t4 =
      (write_bytes (write_bytes data (s + 4) (u32le t0.toNat)) (s + 8) (u32le t4.toNat),
        Except.ok s) := by
  have hw1 := write_u32_some data (s + 4) t0 h0 h0b (by omega)
  have hlen1 : (write_bytes data (s + 4) (u32le t0.toNat)).length = data.length :=
    length_write_bytes _ _ _ (by simp only [length_u32le]; omega)
  have hw2 := write_u32_some (write_bytes data (s + 4) (u32le t0.toNat)) (s + 8) t4 h4 h4b
    (by rw [hlen1]; omega)
  have hne : ¬(cnt < 1 ∨ s = 0) := by omega
  simp only [seq_update, h28, h32, if_neg hne, hw1, hw2]

theorem seq_update_notFound (data : List ℕ) (t0 t4 : ℤ) (d2 : List ℕ)
    (h : seq_update data t0 t4 = (d2, Except.error Err.notFound)) : d2 = data := by
  rcases h28 : read_u32 data SEQ_ARRAY_META_OFF with _ | cnt
  · simp [seq_update, h28] at h
  rcases h32 : read_u32 data (SEQ_ARRAY_META_OFF + 4) with _ | s
  · simp [seq_update, h28, h32] at h
  by_cases hc : cnt < 1 ∨ s = 0
  · simp only [seq_update, h28, h32, if_pos hc, Prod.mk.injEq] at h
    exact h.1.symm
  · have hc2 : ¬(cnt = 0 ∨ s = 0) := by omega
    rcases hw1 : write_u32 data (s + 4) t0 with _ | dd1
    · simp [seq_update, h28, h32, if_neg hc2, hw1] at h
    rcases hw2 : write_u32 dd1 (s + 8) t4 with _ | dd2
    · simp [seq_update, h28, h32, if_neg hc2, hw1, hw2] at h
    · simp [seq_update, h28, h32, if_neg hc2, hw1, hw2] at h

theorem SEQ_ARRAY_META_OFF_eq : SEQ_ARRAY_META_OFF = 28 := rfl

theorem TIMING_ARRAY_OFF_eq : TIMING_ARRAY_OFF = 2784 := rfl

theorem TEXTURE_NAME_OFF_eq : TEXTURE_NAME_OFF = 2704 := rfl

theorem length_incremental_times (fi du fo : ℤ) :
    (incremental_times fi du fo).length = 5 := rfl

theorem incremental_times_bounds (fi du fo : ℤ) (hfi : 0 ≤ fi) (hdu : 0 ≤ du) (hfo : 0 ≤ fo)
    (hfib : fi < 2 ^ 32) (ht4 : 1000 + du + fo < 2 ^ 32) :
    ∀ t ∈ incremental_times fi du fo, 0 ≤ t ∧ t < 2 ^ 32 := by
  intro t ht
  simp only [incremental_times, List.mem_cons, List.not_mem_nil, or_false] at ht
  rcases ht with h | h | h | h | h <;> subst h <;> constructor <;> omega

theorem patch_incremental_spec (data : List ℕ) (fi du fo : ℤ) (cnt s : ℕ)
    (hfi : 0 ≤ fi) (hdu : 0 ≤ du) (hfo : 0 ≤ fo)
    (hfib : fi < 2 ^ 32) (ht4 : 1000 + du + fo < 2 ^ 32)
    (hlen : TIMING_ARRAY_OFF + 20 ≤ data.length)
    (h28 : read_u32 data SEQ_ARRAY_META_OFF = some cnt)
    (h32 : read_u32 data (SEQ_ARRAY_META_OFF + 4) = some s)
    (hcnt : 1 ≤ cnt) (hs : s ≠ 0) (hsl : s + 12 ≤ data.length) :
    ∃ d1, writeTimes data TIMING_ARRAY_OFF (incremental_times fi du fo) = (d1, true) ∧
      d1.length = data.length ∧
      read_u32 d1 SEQ_ARRAY_META_OFF = some cnt ∧
      read_u32 d1 (SEQ_ARRAY_META_OFF + 4) = some s ∧
      (∀ i, i < 5 → read_u32 d1 (TIMING_ARRAY_OFF + 4 * i) =
        some ((incremental_times fi du fo).getD i 0).toNat) ∧
      patch_incremental data fi du fo =
        (write_bytes (write_bytes d1 (s + 4) (u32le (0 : ℤ).toNat)) (s + 8)
            (u32le (1000 + du + fo).toNat),
          Except.ok (incremental_times fi du fo, s, du)) := by
  have hlend : TIMING_ARRAY_OFF + 20 ≤ data.length := hlen
  rw [TIMING_ARRAY_OFF_eq] at hlend
  obtain ⟨d1, hrun, hread⟩ := writeTimes_spec (incremental_times fi du fo) data TIMING_ARRAY_OFF
    (incremental_times_bounds fi du fo hfi hdu hfo hfib ht4)
    (by rw [length_incremental_times, TIMING_ARRAY_OFF_eq]; omega)
  obtain ⟨hlen1, hfr⟩ := writeTimes_frame _ _ _ _ hrun
  rw [length_incremental_times] at hfr
  have hr28 : read_u32 d1 SEQ_ARRAY_META_OFF = some cnt := by
    rw [← h28]
    apply read_u32_eq_of_getD _ _ _ hlen1
    intro k hk
    apply hfr (SEQ_ARRAY_META_OFF + k)
    · rw [SEQ_ARRAY_META_OFF_eq]; omega
    · left; rw [SEQ_ARRAY_META_OFF_eq, TIMING_ARRAY_OFF_eq]; omega
  have hr32 : read_u32 d1 (SEQ_ARRAY_META_OFF + 4) = some s := by
    rw [← h32]
    apply read_u32_eq_of_getD _ _ _ hlen1
    intro k hk
    apply hfr (SEQ_ARRAY_META_OFF + 4 + k)
    · rw [SEQ_ARRAY_META_OFF_eq]; omega
    · left; rw [SEQ_ARRAY_META_OFF_eq, TIMING_ARRAY_OFF_eq]; omega
  have hsu := seq_update_spec d1 0 (1000 + du + fo) cnt s hr28 hr32 hcnt hs
    (by omega) (by omega) (by omega) (by omega) (by rw [hlen1]; omega)
  refine ⟨d1, hrun, hlen1, hr28, hr32,
    fun i hi => hread i (by rw [length_incremental_times]; omega), ?_⟩
  simp only [patch_incremental, hrun, hsu]

/-! ## Supporting facts about the concrete timing buffers -/

theorem timingWitBuf_length : timingWitBuf.length = 2804 := by
  have h1 : (List.replicate 2804 (0 : ℕ)).length = 2804 := List.length_replicate _ _
  have h2 : (write_bytes (List.replicate 2804 (0 : ℕ)) 28 [1, 0, 0, 0]).length = 2804 := by
    rw [length_write_bytes _ _ _ (by rw [h1]; norm_num)]
    exact h1
  unfold timingWitBuf
  rw [length_write_bytes _ _ _ (by rw [h2]; norm_num)]
  exact h2

theorem timingWitBuf_read28 : read_u32 timingWitBuf SEQ_ARRAY_META_OFF = some 1 := by
  have h1 : (List.replicate 2804 (0 : ℕ)).length = 2804 := List.length_replicate _ _
  have h2 : (write_bytes (List.replicate 2804 (0 : ℕ)) 28 [1, 0, 0, 0]).length = 2804 := by
    rw [length_write_bytes _ _ _ (by rw [h1]; norm_num)]
    exact h1
  have he : ([1, 0, 0, 0] : List ℕ) = u32le 1 := rfl
  unfold timingWitBuf
  rw [SEQ_ARRAY_META_OFF_eq]
  rw [read_u32_write_bytes_frame _ _ _ _ (Or.inl (by norm_num)) (by rw [h2]; norm_num)]
  rw [he, read_u32_write_bytes_u32le _ _ _ (by rw [h1]; norm_num) (by norm_num)]

theorem timingWitBuf_read32 : read_u32 timingWitBuf (SEQ_ARRAY_META_OFF + 4) = some 100 := by
  have h1 : (List.replicate 2804 (0 : ℕ)).length = 2804 := List.length_replicate _ _
  have h2 : (write_bytes (List.replicate 2804 (0 : ℕ)) 28 [1, 0, 0, 0]).length = 2804 := by
    rw [length_write_bytes _ _ _ (by rw [h1]; norm_num)]
    exact h1
  have he : ([100, 0, 0, 0] : List ℕ) = u32le 100 := rfl
  unfold timingWitBuf
  rw [SEQ_ARRAY_META_OFF_eq]
  show read_u32 _ 32 = some 100
  rw [he, read_u32_write_bytes_u32le _ _ _ (by rw [h2]; norm_num) (by norm_num)]

/-- C2: for derived-mode inputs with the sequence metadata check passing, the
timing patcher writes the five timestamps `0, fade_in, 1000, 1000 + hold,
1000 + hold + fade_out` into the timing array at its fixed offset, and the
sequence descriptor start field (base + 4) receives `t0` and the end field
(base + 8) receives `t4`. -/
theorem patch_incremental_writes_times (data : List ℕ) (fi du fo : ℤ) (cnt s : ℕ)
    (hfi : 0 ≤ fi) (hdu : 0 ≤ du) (hfo : 0 ≤ fo)
    (hfib : fi < 2 ^ 32) (ht4 : 1000 + du + fo < 2 ^ 32)
    (hlen : TIMING_ARRAY_OFF + 20 ≤ data.length)
    (h28 : read_u32 data SEQ_ARRAY_META_OFF = some cnt)
    (h32 : read_u32 data (SEQ_ARRAY_META_OFF + 4) = some s)
    (hcnt : 1 ≤ cnt) (hs : s ≠ 0) (hsl : s + 12 ≤ data.length)
    (hdisj : s + 12 ≤ TIMING_ARRAY_OFF ∨ TIMING_ARRAY_OFF + 20 ≤ s + 4) :
    (patch_incremental data fi du fo).2 =
      Except.ok ([0, fi, 1000, 1000 + du, 1000 + du + fo], s, du) ∧
    (∀ i, i < 5 → read_u32 (patch_incremental data fi du fo).1 (TIMING_ARRAY_OFF + 4 * i) =
      some (([0, fi, 1000, 1000 + du, 1000 + du + fo].getD i 0).toNat)) ∧
    read_u32 (patch_incremental data fi du fo).1 (s + 4) = some 0 ∧
    read_u32 (patch_incremental data fi du fo).1 (s + 8) = some (1000 + du + fo).toNat := by
  obtain ⟨d1, hrun, hlen1, hr28, hr32, hread, hres⟩ :=
    patch_incremental_spec data fi du fo cnt s hfi hdu hfo hfib ht4 hlen h28 h32 hcnt hs hsl
  have hZ : (u32le (0 : ℤ).toNat).length = 4 := length_u32le _
  have hT : (u32le (1000 + du + fo).toNat).length = 4 := length_u32le _
  have hlenZ : (write_bytes d1 (s + 4) (u32le (0 : ℤ).toNat)).length = data.length := by
    rw [length_write_bytes _ _ _ (by rw [hZ, hlen1]; omega), hlen1]
  constructor
  · rw [hres]
    rfl
  refine ⟨?_, ?_, ?_⟩
  · intro i hi
    rw [hres]
    have hd1 : read_u32 d1 (TIMING_ARRAY_OFF + 4 * i) =
        some (([0, fi, 1000, 1000 + du, 1000 + du + fo].getD i 0).toNat) := hread i hi
    rw [← hd1]
    have hfr1 : read_u32 (write_bytes (write_bytes d1 (s + 4) (u32le (0 : ℤ).toNat)) (s + 8)
        (u32le (1000 + du + fo).toNat)) (TIMING_ARRAY_OFF + 4 * i) =
        read_u32 (write_bytes d1 (s + 4) (u32le (0 : ℤ).toNat)) (TIMING_ARRAY_OFF + 4 * i) := by
      apply read_u32_write_bytes_frame
      · rw [hT]
        rw [TIMING_ARRAY_OFF_eq] at hdisj ⊢
        omega
      · rw [hT, hlenZ]
        omega
    rw [hfr1]
    apply read_u32_write_bytes_frame
    · rw [hZ]
      rw [TIMING_ARRAY_OFF_eq] at hdisj ⊢
      omega
    · rw [hZ, hlen1]
      omega
  · rw [hres]
    have hfr1 : read_u32 (write_bytes (write_bytes d1 (s + 4) (u32le (0 : ℤ).toNat)) (s + 8)
        (u32le (1000 + du + fo).toNat)) (s + 4) =
        read_u32 (write_bytes d1 (s + 4) (u32le (0 : ℤ).toNat)) (s + 4) := by
      apply read_u32_write_bytes_frame
      · left; omega
      · rw [hT, hlenZ]; omega
    rw [hfr1]
    exact read_u32_write_bytes_u32le d1 (s + 4) (0 : ℤ).toNat (by rw [hlen1]; omega) (by norm_num)
  · rw [hres]
    apply read_u32_write_bytes_u32le
    · rw [hlenZ]; omega
    · omega

/-- C2 witness at a concrete buffer. -/
theorem patch_incremental_writes_times_witness :
    (patch_incremental timingWitBuf 500 8000 1000).2 =
      Except.ok ([0, 500, 1000, 9000, 10000], 100, 8000) ∧
    read_u32 (patch_incremental timingWitBuf 500 8000 1000).1 (100 + 4) = some 0 ∧
    read_u32 (patch_incremental timingWitBuf 500 8000 1000).1 (100 + 8) = some 10000 ∧
    read_u32 (patch_incremental timingWitBuf 500 8000 1000).1 (TIMING_ARRAY_OFF + 4 * 1) =
      some 500 := by
  have h := patch_incremental_writes_times timingWitBuf 500 8000 1000 1 100
    (by norm_num) (by norm_num) (by norm_num) (by norm_num) (by norm_num)
    (by rw [TIMING_ARRAY_OFF_eq, timingWitBuf_length])
    timingWitBuf_read28 timingWitBuf_read32
    (by norm_num) (by norm_num) (by rw [timingWitBuf_length]; norm_num)
    (Or.inl (by rw [TIMING_ARRAY_OFF_eq]; norm_num))
  refine ⟨?_, ?_, ?_, ?_⟩
  · have := h.1
    norm_num at this ⊢
    exact this
  · exact h.2.2.1
  · have := h.2.2.2
    norm_num at this ⊢
    exact this
  · have := h.2.1 1 (by norm_num)
    norm_num at this ⊢
    exact this

/-- C7: explicit mode with a timestamp list whose length is not 5 fails with
`invalidArgument` and leaves the buffer byte-for-byte unchanged. -/
theorem patch_full_times_invalid_len (data : List ℕ) (times : List ℤ)
    (h : times.length ≠ 5) :
    patch_full_times data times = (data, Except.error Err.invalidArgument) := by
  simp only [patch_full_times, if_pos h]

/-- C7 witness: a 3-element list is rejected with the buffer untouched. -/
theorem patch_full_times_invalid_len_witness :
    patch_full_times timingWitBuf [0, 1, 2] = (timingWitBuf, Except.error Err.invalidArgument) :=
  patch_full_times_invalid_len timingWitBuf [0, 1, 2] (by norm_num)

/-- C9: the derived-mode timestamps are monotonically non-decreasing whenever
`0 ≤ fade_in ≤ 1000` and hold and fade-out are non-negative, and an input with
`fade_in > 1000` produces a non-monotone timestamp list. -/
theorem incremental_times_monotone :
    (∀ fi du fo : ℤ, 0 ≤ fi → fi ≤ 1000 → 0 ≤ du → 0 ≤ fo →
      (incremental_times fi du fo).Chain' (· ≤ ·)) ∧
    ¬(incremental_times 2000 0 0).Chain' (· ≤ ·) := by
  constructor
  · intro fi du fo h1 h2 h3 h4
    simp only [incremental_times, List.chain'_cons, List.chain'_singleton, and_true]
    refine ⟨by omega, by omega, by omega, by omega⟩
  · simp only [incremental_times, List.chain'_cons, List.chain'_singleton, and_true]
    omega

/-- C9 witness: the defaults fade_in 500, hold 8000, fade_out 1000 are monotone. -/
theorem incremental_times_monotone_witness :
    (incremental_times 500 8000 1000).Chain' (· ≤ ·) :=
  incremental_times_monotone.1 500 8000 1000 (by norm_num) (by norm_num) (by norm_num)
    (by norm_num)

/-- On a notFound outcome the buffer returned by `patch_incremental` is the
buffer after the timing-array writes, with the timing array rewritten. -/
theorem patch_incremental_notFound_run (data : List ℕ) (fi du fo : ℤ) (cnt s : ℕ)
    (hfi : 0 ≤ fi) (hdu : 0 ≤ du) (hfo : 0 ≤ fo)
    (hfib : fi < 2 ^ 32) (ht4 : 1000 + du + fo < 2 ^ 32)
    (hlen : TIMING_ARRAY_OFF + 20 ≤ data.length)
    (h28 : read_u32 data SEQ_ARRAY_META_OFF = some cnt)
    (h32 : read_u32 data (SEQ_ARRAY_META_OFF + 4) = some s)
    (hns : cnt < 1 ∨ s = 0) :
    ∃ d1, writeTimes data TIMING_ARRAY_OFF (incremental_times fi du fo) = (d1, true) ∧
      d1.length = data.length ∧
      patch_incremental data fi du fo = (d1, Except.error Err.notFound) ∧
      read_u32 d1 TIMING_ARRAY_OFF = some 0 := by
  obtain ⟨d1, hrun, hread⟩ := writeTimes_spec (incremental_times fi du fo) data TIMING_ARRAY_OFF
    (incremental_times_bounds fi du fo hfi hdu hfo hfib ht4)
    (by rw [length_incremental_times, TIMING_ARRAY_OFF_eq] at *; omega)
  obtain ⟨hlen1, hfr⟩ := writeTimes_frame _ _ _ _ hrun
  rw [length_incremental_times] at hfr
  have hr28 : read_u32 d1 SEQ_ARRAY_META_OFF = some cnt := by
    rw [← h28]
    apply read_u32_eq_of_getD _ _ _ hlen1
    intro k hk
    apply hfr (SEQ_ARRAY_META_OFF + k)
    · rw [SEQ_ARRAY_META_OFF_eq]
      rw [TIMING_ARRAY_OFF_eq] at hlen
      omega
    · left; rw [SEQ_ARRAY_META_OFF_eq, TIMING_ARRAY_OFF_eq]; omega
  have hr32 : read_u32 d1 (SEQ_ARRAY_META_OFF + 4) = some s := by
    rw [← h32]
    apply read_u32_eq_of_getD _ _ _ hlen1
    intro k hk
    apply hfr (SEQ_ARRAY_META_OFF + 4 + k)
    · rw [SEQ_ARRAY_META_OFF_eq]
      rw [TIMING_ARRAY_OFF_eq] at hlen
      omega
    · left; rw [SEQ_ARRAY_META_OFF_eq, TIMING_ARRAY_OFF_eq]; omega
  refine ⟨d1, hrun, hlen1, ?_, ?_⟩
  · simp only [patch_incremental, hrun, seq_update, hr28, hr32, if_pos hns]
  · have := hread 0 (by rw [length_incremental_times]; norm_num)
    simpa using this

/-- C4 (amended): when either timing-patcher mode fails with `notFound`, the
sequence descriptor is untouched and every byte outside the 20-byte timing
array region is unchanged; the timing array itself, however, has already been
rewritten, so the buffer as a whole is not guaranteed to be unchanged. -/
theorem patch_times_notFound_frame :
    (∀ (data : List ℕ) (fi du fo : ℤ) (j : ℕ),
        (patch_incremental data fi du fo).2 = Except.error Err.notFound →
        j < data.length → (j < TIMING_ARRAY_OFF ∨ TIMING_ARRAY_OFF + 20 ≤ j) →
        (patch_incremental data fi du fo).1.getD j 0 = data.getD j 0) ∧
    (∀ (data : List ℕ) (times : List ℤ) (j : ℕ),
        (patch_full_times data times).2 = Except.error Err.notFound →
        j < data.length → (j < TIMING_ARRAY_OFF ∨ TIMING_ARRAY_OFF + 20 ≤ j) →
        (patch_full_times data times).1.getD j 0 = data.getD j 0) := by
  constructor
  · intro data fi du fo j h hj hout
    rcases hw : writeTimes data TIMING_ARRAY_OFF (incremental_times fi du fo) with ⟨d1, b⟩
    cases b
    · exact absurd h (by simp [patch_incremental, hw])
    · rcases hsu : seq_update d1 0 (1000 + du + fo) with ⟨d2, r⟩
      rcases r with e | sq
      · have he : e = Err.notFound := by
          have h2 := h
          simp [patch_incremental, hw, hsu] at h2
          exact h2
        subst he
        have hd2 : d2 = d1 := seq_update_notFound _ _ _ _ hsu
        have h1 : (patch_incremental data fi du fo).1 = d2 := by
          simp [patch_incremental, hw, hsu]
        rw [h1, hd2]
        obtain ⟨hl, hfr⟩ := writeTimes_frame _ _ _ _ hw
        apply hfr j hj
        rw [length_incremental_times]
        omega
      · exact absurd h (by simp [patch_incremental, hw, hsu])
  · intro data times j h hj hout
    by_cases h5 : times.length = 5
    · have hne : ¬times.length ≠ 5 := by omega
      rcases hw : writeTimes data TIMING_ARRAY_OFF times with ⟨d1, b⟩
      cases b
      · refine absurd h ?_
        simp only [patch_full_times, if_neg hne, hw]
        simp
      · rcases hsu : seq_update d1 (times.getD 0 0) (times.getD 4 0) with ⟨d2, r⟩
        rcases r with e | sq
        · have he : e = Err.notFound := by
            have h2 := h
            simp only [patch_full_times, if_neg hne, hw, hsu] at h2
            simpa using h2
          subst he
          have hd2 : d2 = d1 := seq_update_notFound _ _ _ _ hsu
          have h1 : (patch_full_times data times).1 = d2 := by
            simp only [patch_full_times, if_neg hne, hw, hsu]
          rw [h1, hd2]
          obtain ⟨hl, hfr⟩ := writeTimes_frame _ _ _ _ hw
          apply hfr j hj
          rw [h5]
          omega
        · refine absurd h ?_
          simp only [patch_full_times, if_neg hne, hw, hsu]
          simp
    · refine absurd h ?_
      simp only [patch_full_times, if_pos h5]
      simp

theorem timingCexBuf_length : timingCexBuf.length = 2804 := by
  have hR : (List.replicate 2804 (7 : ℕ)).length = 2804 := List.length_replicate _ _
  unfold timingCexBuf
  rw [length_write_bytes _ _ _ (by rw [hR, List.length_replicate]; norm_num)]
  exact hR

theorem timingCexBuf_read28 : read_u32 timingCexBuf SEQ_ARRAY_META_OFF = some 0 := by
  have hR : (List.replicate 2804 (7 : ℕ)).length = 2804 := List.length_replicate _ _
  have hb : ∀ k, k < 8 → timingCexBuf.getD (28 + k) 0 = 0 := by
    intro k hk
    unfold timingCexBuf
    rw [getD_write_bytes_in _ _ _ _ (by rw [hR]; norm_num) (by rw [List.length_replicate]; omega)]
    simp only [List.getD_eq_getElem?_getD, List.getElem?_replicate_of_lt hk, Option.getD_some]
  have h0 := hb 0 (by norm_num)
  have h1 := hb 1 (by norm_num)
  have h2 := hb 2 (by norm_num)
  have h3 := hb 3 (by norm_num)
  simp only [Nat.add_zero] at h0
  rw [SEQ_ARRAY_META_OFF_eq, read_u32, if_pos (by rw [timingCexBuf_length]; norm_num)]
  rw [h0, h1, h2, h3]

theorem timingCexBuf_read32 : read_u32 timingCexBuf (SEQ_ARRAY_META_OFF + 4) = some 0 := by
  have hR : (List.replicate 2804 (7 : ℕ)).length = 2804 := List.length_replicate _ _
  have hb : ∀ k, k < 4 → timingCexBuf.getD (32 + k) 0 = 0 := by
    intro k hk
    have he : 32 + k = 28 + (4 + k) := by omega
    unfold timingCexBuf
    rw [he, getD_write_bytes_in _ _ _ _ (by rw [hR]; norm_num)
      (by rw [List.length_replicate]; omega)]
    simp only [List.getD_eq_getElem?_getD, List.getElem?_replicate_of_lt (by omega : 4 + k < 8),
      Option.getD_some]
  have h0 := hb 0 (by norm_num)
  have h1 := hb 1 (by norm_num)
  have h2 := hb 2 (by norm_num)
  have h3 := hb 3 (by norm_num)
  simp only [Nat.add_zero] at h0
  rw [SEQ_ARRAY_META_OFF_eq]
  show read_u32 _ 32 = some 0
  rw [read_u32, if_pos (by rw [timingCexBuf_length]; norm_num)]
  rw [h0, h1, h2, h3]

theorem timingCexBuf_getD2784 : timingCexBuf.getD 2784 0 = 7 := by
  unfold timingCexBuf
  rw [getD_write_bytes_ge _ _ _ _ (by rw [List.length_replicate]; norm_num)]
  simp only [List.getD_eq_getElem?_getD,
    List.getElem?_replicate_of_lt (by norm_num : (2784 : ℕ) < 2804), Option.getD_some]

/-- C4 counterexample: on a buffer whose sequence metadata is zeroed, the
derived-mode patcher fails with `notFound` yet the buffer is modified — the
timing array has already been written when the check runs. -/
theorem patch_incremental_not_atomic_cex :
    (patch_incremental timingCexBuf 500 8000 1000).2 = Except.error Err.notFound ∧
    (patch_incremental timingCexBuf 500 8000 1000).1 ≠ timingCexBuf := by
  obtain ⟨d1, hrun, hlen1, hres, hslot⟩ := patch_incremental_notFound_run timingCexBuf
    500 8000 1000 0 0 (by norm_num) (by norm_num) (by norm_num) (by norm_num) (by norm_num)
    (by rw [TIMING_ARRAY_OFF_eq, timingCexBuf_length])
    timingCexBuf_read28 timingCexBuf_read32 (Or.inl (by norm_num))
  constructor
  · rw [hres]
  · rw [hres]
    intro heq
    have heq2 : d1 = timingCexBuf := heq
    have hb : d1.getD 2784 0 = 0 := by
      have h2 := hslot
      rw [TIMING_ARRAY_OFF_eq, read_u32,
        if_pos (by rw [hlen1, timingCexBuf_length]; norm_num)] at h2
      simp only [Option.some.injEq] at h2
      omega
    rw [heq2, timingCexBuf_getD2784] at hb
    exact absurd hb (by norm_num)

/-- C4 witness: a byte outside the timing array region is untouched on the
notFound path. -/
theorem patch_times_notFound_frame_witness :
    (patch_incremental timingCexBuf 500 8000 1000).1.getD 0 0 = timingCexBuf.getD 0 0 := by
  obtain ⟨d1, hrun, hlen1, hres, hslot⟩ := patch_incremental_notFound_run timingCexBuf
    500 8000 1000 0 0 (by norm_num) (by norm_num) (by norm_num) (by norm_num) (by norm_num)
    (by rw [TIMING_ARRAY_OFF_eq, timingCexBuf_length])
    timingCexBuf_read28 timingCexBuf_read32 (Or.inl (by norm_num))
  exact patch_times_notFound_frame.1 timingCexBuf 500 8000 1000 0
    (by rw [hres]) (by rw [timingCexBuf_length]; norm_num)
    (Or.inl (by rw [TIMING_ARRAY_OFF_eq]; norm_num))

/-! ## Lemmas about the float32 encoder and the quad resizer -/

theorem encf32_zero : encf32 0 = some [0, 0, 0, 0] := rfl

theorem length_of_encf32 (q : ℚ) (b : List ℕ) (h : encf32 q = some b) : b.length = 4 := by
  have hf : ∀ s e m : ℕ, (f32bits s e m).length = 4 := fun _ _ _ => rfl
  simp only [encf32] at h
  repeat' split at h
  all_goals first
    | (simp only [Option.some.injEq] at h; rw [← h]; exact hf _ _ _)
    | exact absurd h (by simp)

theorem pack3f_of_encf32 (x y z : ℚ) (a b c : List ℕ)
    (hx : encf32 x = some a) (hy : encf32 y = some b) (hz : encf32 z = some c) :
    pack3f x y z = some (a ++ b ++ c) := by
  simp only [pack3f, hx, hy, hz]

theorem pack3f_inv (x y z : ℚ) (bs : List ℕ) (h : pack3f x y z = some bs) :
    ∃ a b c, encf32 x = some a ∧ encf32 y = some b ∧ encf32 z = some c ∧
      bs = a ++ b ++ c := by
  rcases hx : encf32 x with _ | a <;> rcases hy : encf32 y with _ | b <;>
    rcases hz : encf32 z with _ | c <;>
    simp only [pack3f, hx, hy, hz, Option.some.injEq] at h
  all_goals first
    | exact ⟨a, b, c, rfl, rfl, rfl, h.symm⟩
    | exact absurd h (by simp)

theorem length_of_pack3f (x y z : ℚ) (bs : List ℕ) (h : pack3f x y z = some bs) :
    bs.length = 12 := by
  obtain ⟨a, b, c, hx, hy, hz, he⟩ := pack3f_inv x y z bs h
  rw [he]
  simp only [List.length_append, length_of_encf32 _ _ hx, length_of_encf32 _ _ hy,
    length_of_encf32 _ _ hz]

theorem resize_quad_ok (data : List ℕ) (dia oh : ℚ) (pat : List ℕ) (idx : ℕ)
    (P N : List ℕ)
    (hpat : pack3f (-oh) (-oh) 0 = some pat) (hfind : findPat data pat = some idx)
    (hp : encf32 (dia / 2) = some P) (hn : encf32 (-(dia / 2)) = some N) :
    resize_quad data dia oh =
      (write_bytes (write_bytes (write_bytes (write_bytes data
          idx (N ++ N ++ [0, 0, 0, 0]))
          (idx + 48) (P ++ N ++ [0, 0, 0, 0]))
          (idx + 96) (N ++ P ++ [0, 0, 0, 0]))
          (idx + 144) (P ++ P ++ [0, 0, 0, 0]),
        Except.ok (idx, [(-(dia / 2), -(dia / 2), 0), (dia / 2, -(dia / 2), 0),
          (-(dia / 2), dia / 2, 0), (dia / 2, dia / 2, 0)])) := by
  have h0 : encf32 (0 : ℚ) = some [0, 0, 0, 0] := rfl
  have p0 : pack3f (-(dia / 2)) (-(dia / 2)) 0 = some (N ++ N ++ [0, 0, 0, 0]) :=
    pack3f_of_encf32 _ _ _ _ _ _ hn hn h0
  have p1 : pack3f (dia / 2) (-(dia / 2)) 0 = some (P ++ N ++ [0, 0, 0, 0]) :=
    pack3f_of_encf32 _ _ _ _ _ _ hp hn h0
  have p2 : pack3f (-(dia / 2)) (dia / 2) 0 = some (N ++ P ++ [0, 0, 0, 0]) :=
    pack3f_of_encf32 _ _ _ _ _ _ hn hp h0
  have p3 : pack3f (dia / 2) (dia / 2) 0 = some (P ++ P ++ [0, 0, 0, 0]) :=
    pack3f_of_encf32 _ _ _ _ _ _ hp hp h0
  simp only [resize_quad, hpat, hfind]
  simp only [List.enum, List.enumFrom]
  simp only [writeVerts, p0, p1, p2, p3, M2_VERTEX_STRIDE]
  norm_num

theorem resize_writes_getD (data B0 B1 B2 B3 : List ℕ) (idx : ℕ)
    (h0 : B0.length = 12) (h1 : B1.length = 12) (h2 : B2.length = 12) (h3 : B3.length = 12)
    (hlen : idx + 156 ≤ data.length) :
    (write_bytes (write_bytes (write_bytes (write_bytes data idx B0)
        (idx + 48) B1) (idx + 96) B2) (idx + 144) B3).length = data.length ∧
    (∀ k, k < 12 → (write_bytes (write_bytes (write_bytes (write_bytes data idx B0)
        (idx + 48) B1) (idx + 96) B2) (idx + 144) B3).getD (idx + k) 0 = B0.getD k 0) ∧
    (∀ k, k < 12 → (write_bytes (write_bytes (write_bytes (write_bytes data idx B0)
        (idx + 48) B1) (idx + 96) B2) (idx + 144) B3).getD (idx + 48 + k) 0 = B1.getD k 0) ∧
    (∀ k, k < 12 → (write_bytes (write_bytes (write_bytes (write_bytes data idx B0)
        (idx + 48) B1) (idx + 96) B2) (idx + 144) B3).getD (idx + 96 + k) 0 = B2.getD k 0) ∧
    (∀ k, k < 12 → (write_bytes (write_bytes (write_bytes (write_bytes data idx B0)
        (idx + 48) B1) (idx + 96) B2) (idx + 144) B3).getD (idx + 144 + k) 0 = B3.getD k 0) := by
  have l0 : (write_bytes data idx B0).length = data.length :=
    length_write_bytes _ _ _ (by rw [h0]; omega)
  have l1 : (write_bytes (write_bytes data idx B0) (idx + 48) B1).length = data.length := by
    rw [length_write_bytes _ _ _ (by rw [h1, l0]; omega), l0]
  have l2 : (write_bytes (write_bytes (write_bytes data idx B0) (idx + 48) B1)
      (idx + 96) B2).length = data.length := by
    rw [length_write_bytes _ _ _ (by rw [h2, l1]; omega), l1]
  have l3 : (write_bytes (write_bytes (write_bytes (write_bytes data idx B0)
      (idx + 48) B1) (idx + 96) B2) (idx + 144) B3).length = data.length := by
    rw [length_write_bytes _ _ _ (by rw [h3, l2]; omega), l2]
  refine ⟨l3, ?_, ?_, ?_, ?_⟩
  · intro k hk
    rw [getD_write_bytes_lt _ _ _ _ (by omega) (by rw [l2]; omega),
      getD_write_bytes_lt _ _ _ _ (by omega) (by rw [l1]; omega),
      getD_write_bytes_lt _ _ _ _ (by omega) (by rw [l0]; omega),
      getD_write_bytes_in _ _ _ _ (by omega) (by rw [h0]; omega)]
  · intro k hk
    rw [getD_write_bytes_lt _ _ _ _ (by omega) (by rw [l2]; omega),
      getD_write_bytes_lt _ _ _ _ (by omega) (by rw [l1]; omega)]
    have he : idx + 48 + k = (idx + 48) + k := rfl
    rw [he, getD_write_bytes_in _ _ _ _ (by rw [l0]; omega) (by rw [h1]; omega)]
  · intro k hk
    rw [getD_write_bytes_lt _ _ _ _ (by omega) (by rw [l2]; omega)]
    have he : idx + 96 + k = (idx + 96) + k := rfl
    rw [he, getD_write_bytes_in _ _ _ _ (by rw [l1]; omega) (by rw [h2]; omega)]
  · intro k hk
    have he : idx + 144 + k = (idx + 144) + k := rfl
    rw [he, getD_write_bytes_in _ _ _ _ (by rw [l2]; omega) (by rw [h3]; omega)]

theorem getD_write_bytes_out (data bts : List ℕ) (off j : ℕ)
    (h : j < off ∨ off + bts.length ≤ j) (hj : j < data.length) :
    (write_bytes data off bts).getD j 0 = data.getD j 0 := by
  rcases h with h | h
  · exact getD_write_bytes_lt _ _ _ _ h hj
  · exact getD_write_bytes_ge _ _ _ _ h

theorem findPat_none (data pat : List ℕ)
    (h : ∀ i, pat.isPrefixOf (List.drop i data) = false) : findPat data pat = none := by
  induction data with
  | nil =>
    have h0 := h 0
    rw [List.drop_zero] at h0
    simp [findPat, h0]
  | cons a as ih =>
    have h0 := h 0
    rw [List.drop_zero] at h0
    have ih2 := ih fun i => by
      have hi := h (i + 1)
      rwa [List.drop_succ_cons] at hi
    rw [findPat, if_neg (by rw [h0]; exact Bool.false_ne_true), ih2]
    rfl

/-- C6: when no occurrence of the 12-byte `(−h, −h, 0)` signature exists in
the buffer, the quad locator/resizer fails with `notFound` and the buffer is
byte-for-byte unchanged. -/
theorem resize_quad_notFound (data : List ℕ) (dia oh : ℚ) (pat : List ℕ)
    (hpat : pack3f (-oh) (-oh) 0 = some pat)
    (hno : ∀ i, pat.isPrefixOf (List.drop i data) = false) :
    resize_quad data dia oh = (data, Except.error Err.notFound) := by
  simp only [resize_quad, hpat, findPat_none data pat hno]

set_option maxRecDepth 10000 in
unseal Rat.mul Rat.inv Rat.add Rat.sub in
/-- C6 witness: a 3-byte buffer without the signature is rejected unchanged. -/
theorem resize_quad_notFound_witness :
    resize_quad [1, 2, 3] 20 (25 / 2) = ([1, 2, 3], Except.error Err.notFound) := by
  apply resize_quad_notFound [1, 2, 3] 20 (25 / 2) sigBytes (by decide)
  intro i
  match i with
  | 0 => decide
  | 1 => decide
  | 2 => decide
  | 3 => decide
  | n + 4 =>
    have hd : List.drop (n + 4) [1, 2, 3] = ([] : List ℕ) :=
      List.drop_eq_nil_of_le (by simp only [List.length_cons, List.length_nil]; omega)
    rw [hd]
    decide

/-- C1: on a buffer containing the exact signature for the original half-size,
the quad resizer succeeds, returns the first match offset with the four
positions `(±d/2, ±d/2, 0)` in source order, and writes their little-endian
float32 encodings into the first 12 bytes of each 48-byte vertex slot. -/
theorem resize_quad_writes_vertices (data : List ℕ) (dia oh : ℚ) (pat : List ℕ) (idx : ℕ)
    (P N : List ℕ)
    (hpat : pack3f (-oh) (-oh) 0 = some pat)
    (hfind : findPat data pat = some idx)
    (hp : encf32 (dia / 2) = some P) (hn : encf32 (-(dia / 2)) = some N)
    (hlen : idx + 156 ≤ data.length) :
    (resize_quad data dia oh).2 = Except.ok (idx,
      [(-(dia / 2), -(dia / 2), 0), (dia / 2, -(dia / 2), 0),
       (-(dia / 2), dia / 2, 0), (dia / 2, dia / 2, 0)]) ∧
    N.length = 4 ∧ P.length = 4 ∧
    (∀ k, k < 12 → (resize_quad data dia oh).1.getD (idx + k) 0 =
      (N ++ N ++ [0, 0, 0, 0]).getD k 0) ∧
    (∀ k, k < 12 → (resize_quad data dia oh).1.getD (idx + 48 + k) 0 =
      (P ++ N ++ [0, 0, 0, 0]).getD k 0) ∧
    (∀ k, k < 12 → (resize_quad data dia oh).1.getD (idx + 96 + k) 0 =
      (N ++ P ++ [0, 0, 0, 0]).getD k 0) ∧
    (∀ k, k < 12 → (resize_quad data dia oh).1.getD (idx + 144 + k) 0 =
      (P ++ P ++ [0, 0, 0, 0]).getD k 0) := by
  have hN : N.length = 4 := length_of_encf32 _ _ hn
  have hP : P.length = 4 := length_of_encf32 _ _ hp
  have l0 : (N ++ N ++ [0, 0, 0, 0] : List ℕ).length = 12 := by
    simp [hN]
  have l1 : (P ++ N ++ [0, 0, 0, 0] : List ℕ).length = 12 := by
    simp [hN, hP]
  have l2 : (N ++ P ++ [0, 0, 0, 0] : List ℕ).length = 12 := by
    simp [hN, hP]
  have l3 : (P ++ P ++ [0, 0, 0, 0] : List ℕ).length = 12 := by
    simp [hP]
  obtain ⟨hw, g0, g1, g2, g3⟩ := resize_writes_getD data
    (N ++ N ++ [0, 0, 0, 0]) (P ++ N ++ [0, 0, 0, 0])
    (N ++ P ++ [0, 0, 0, 0]) (P ++ P ++ [0, 0, 0, 0]) idx l0 l1 l2 l3 hlen
  rw [resize_quad_ok data dia oh pat idx P N hpat hfind hp hn]
  exact ⟨rfl, hN, hP, g0, g1, g2, g3⟩

set_option maxRecDepth 10000 in
unseal Rat.mul Rat.inv Rat.add Rat.sub in
/-- C1 witness: diameter 20 on a buffer with the 12.5 signature at offset 0. -/
theorem resize_quad_writes_vertices_witness :
    (resize_quad quadWitBuf 20 (25 / 2)).2 = Except.ok (0,
      [(-10, -10, 0), (10, -10, 0), (-10, 10, 0), (10, 10, 0)]) ∧
    (resize_quad quadWitBuf 20 (25 / 2)).1.getD 3 0 = 193 ∧
    (resize_quad quadWitBuf 20 (25 / 2)).1.getD 51 0 = 65 := by
  have h := resize_quad_writes_vertices quadWitBuf 20 (25 / 2) sigBytes 0
    [0, 0, 32, 65] [0, 0, 32, 193]
    (by decide) (by decide) (by decide) (by decide) (by decide)
  refine ⟨?_, ?_, ?_⟩
  · have h1 := h.1
    have e1 : (-(20 / 2 : ℚ)) = -10 := by norm_num
    have e2 : ((20 / 2 : ℚ)) = 10 := by norm_num
    rw [e1, e2] at h1
    exact h1
  · have h3 := h.2.2.2.1 3 (by norm_num)
    have e3 : (0 : ℕ) + 3 = 3 := rfl
    rw [e3] at h3
    rw [h3]
    decide
  · have h4 := h.2.2.2.2.1 3 (by norm_num)
    have e4 : (0 : ℕ) + 48 + 3 = 51 := rfl
    rw [e4] at h4
    rw [h4]
    decide

/-- C8: on success at match offset `idx`, every byte outside the four 12-byte
position regions spaced 48 bytes apart is unchanged. -/
theorem resize_quad_frame (data : List ℕ) (dia oh : ℚ) (idx : ℕ) (ps : List (ℚ × ℚ × ℚ))
    (hok : (resize_quad data dia oh).2 = Except.ok (idx, ps)) :
    ∀ j, j < data.length →
      (∀ i, i < 4 → ¬(idx + i * 48 ≤ j ∧ j < idx + i * 48 + 12)) →
      (resize_quad data dia oh).1.getD j 0 = data.getD j 0 := by
  intro j hj hout
  have o0 := hout 0 (by norm_num)
  have o1 := hout 1 (by norm_num)
  have o2 := hout 2 (by norm_num)
  have o3 := hout 3 (by norm_num)
  simp only [Nat.zero_mul, Nat.add_zero, Nat.one_mul] at o0 o1
  rcases hpat : pack3f (-oh) (-oh) 0 with _ | pat
  · simp [resize_quad, hpat] at hok
  rcases hfind : findPat data pat with _ | idx0
  · simp [resize_quad, hpat, hfind] at hok
  have henum : ([(-(dia / 2), -(dia / 2), (0 : ℚ)), (dia / 2, -(dia / 2), 0),
      (-(dia / 2), dia / 2, 0), (dia / 2, dia / 2, 0)]).enum =
      [(0, (-(dia / 2), -(dia / 2), (0 : ℚ))), (1, (dia / 2, -(dia / 2), 0)),
       (2, (-(dia / 2), dia / 2, 0)), (3, (dia / 2, dia / 2, 0))] := rfl
  rcases q0 : pack3f (-(dia / 2)) (-(dia / 2)) 0 with _ | b0
  · simp [resize_quad, hpat, hfind, henum, writeVerts, q0] at hok
  rcases q1 : pack3f (dia / 2) (-(dia / 2)) 0 with _ | b1
  · simp [resize_quad, hpat, hfind, henum, writeVerts, q0, q1] at hok
  rcases q2 : pack3f (-(dia / 2)) (dia / 2) 0 with _ | b2
  · simp [resize_quad, hpat, hfind, henum, writeVerts, q0, q1, q2] at hok
  rcases q3 : pack3f (dia / 2) (dia / 2) 0 with _ | b3
  · simp [resize_quad, hpat, hfind, henum, writeVerts, q0, q1, q2, q3] at hok
  have hidx : idx0 = idx := by
    simp only [resize_quad, hpat, hfind, henum, writeVerts, q0, q1, q2, q3,
      M2_VERTEX_STRIDE] at hok
    simp at hok
    exact hok.1
  subst hidx
  have hL0 : b0.length = 12 := length_of_pack3f _ _ _ _ q0
  have hL1 : b1.length = 12 := length_of_pack3f _ _ _ _ q1
  have hL2 : b2.length = 12 := length_of_pack3f _ _ _ _ q2
  have hL3 : b3.length = 12 := length_of_pack3f _ _ _ _ q3
  have hres : (resize_quad data dia oh).1 =
      write_bytes (write_bytes (write_bytes (write_bytes data idx0 b0)
        (idx0 + 1 * M2_VERTEX_STRIDE) b1) (idx0 + 2 * M2_VERTEX_STRIDE) b2)
        (idx0 + 3 * M2_VERTEX_STRIDE) b3 := by
    simp only [resize_quad, hpat, hfind, henum, writeVerts, q0, q1, q2, q3]
    norm_num [M2_VERTEX_STRIDE]
  rw [hres]
  have hg0 : data.length ≤ (write_bytes data idx0 b0).length := length_write_bytes_ge _ _ _
  have hg1 : data.length ≤ (write_bytes (write_bytes data idx0 b0)
      (idx0 + 1 * M2_VERTEX_STRIDE) b1).length :=
    le_trans hg0 (length_write_bytes_ge _ _ _)
  have hg2 : data.length ≤ (write_bytes (write_bytes (write_bytes data idx0 b0)
      (idx0 + 1 * M2_VERTEX_STRIDE) b1) (idx0 + 2 * M2_VERTEX_STRIDE) b2).length :=
    le_trans hg1 (length_write_bytes_ge _ _ _)
  rw [getD_write_bytes_out _ _ _ _ (by rw [hL3]; simp only [M2_VERTEX_STRIDE]; omega)
      (by omega),
    getD_write_bytes_out _ _ _ _ (by rw [hL2]; simp only [M2_VERTEX_STRIDE]; omega)
      (by omega),
    getD_write_bytes_out _ _ _ _ (by rw [hL1]; simp only [M2_VERTEX_STRIDE]; omega)
      (by omega),
    getD_write_bytes_out _ _ _ _ (by rw [hL0]; omega) hj]

set_option maxRecDepth 10000 in
unseal Rat.mul Rat.inv Rat.add Rat.sub in
/-- C8 witness: byte 30 of the concrete buffer is untouched. -/
theorem resize_quad_frame_witness :
    (resize_quad quadWitBuf 20 (25 / 2)).1.getD 30 0 = quadWitBuf.getD 30 0 := by
  apply resize_quad_frame quadWitBuf 20 (25 / 2) 0
    [(-10, -10, 0), (10, -10, 0), (-10, 10, 0), (10, 10, 0)]
  · rfl
  · decide
  · intro i hi
    omega

theorem getD_write_bytes_at (data bts : List ℕ) (off j : ℕ) (hoff : off ≤ data.length)
    (h1 : off ≤ j) (h2 : j < off + bts.length) :
    (write_bytes data off bts).getD j 0 = bts.getD (j - off) 0 := by
  have hl : (data.take off).length = off := by
    simp only [List.length_take]; omega
  simp only [write_bytes, List.getD_eq_getElem?_getD, List.append_assoc]
  rw [List.getElem?_append_right (by omega : (data.take off).length ≤ j),
    List.getElem?_append_left
      (by simp only [hl]; omega : j - (data.take off).length < bts.length)]
  have hidx : j - (List.take off data).length = j - off := by rw [hl]
  rw [hidx]

theorem seq_update_ok_inv (data : List ℕ) (t0 t4 : ℤ) (d2 : List ℕ) (s : ℕ)
    (h : seq_update data t0 t4 = (d2, Except.ok s)) :
    ∃ cnt, read_u32 data SEQ_ARRAY_META_OFF = some cnt ∧
      read_u32 data (SEQ_ARRAY_META_OFF + 4) = some s ∧ 1 ≤ cnt ∧ s ≠ 0 ∧
      0 ≤ t0 ∧ t0 < 2 ^ 32 ∧ 0 ≤ t4 ∧ t4 < 2 ^ 32 ∧ s + 12 ≤ data.length ∧
      d2 = write_bytes (write_bytes data (s + 4) (u32le t0.toNat)) (s + 8)
        (u32le t4.toNat) := by
  rcases h28 : read_u32 data SEQ_ARRAY_META_OFF with _ | cnt
  · simp [seq_update, h28] at h
  rcases h32 : read_u32 data (SEQ_ARRAY_META_OFF + 4) with _ | s0
  · simp [seq_update, h28, h32] at h
  by_cases hc : cnt < 1 ∨ s0 = 0
  · have hcp : cnt = 0 ∨ s0 = 0 := by omega
    simp [seq_update, h28, h32, if_pos hcp] at h
  have hc2 : ¬(cnt = 0 ∨ s0 = 0) := by omega
  rcases hw1 : write_u32 data (s0 + 4) t0 with _ | e1
  · simp [seq_update, h28, h32, if_neg hc2, hw1] at h
  rcases hw2 : write_u32 e1 (s0 + 8) t4 with _ | e2
  · simp [seq_update, h28, h32, if_neg hc2, hw1, hw2] at h
  obtain ⟨hb01, hb02, hl1, he1⟩ := write_u32_eq_some _ _ _ _ hw1
  obtain ⟨hb41, hb42, hl2, he2⟩ := write_u32_eq_some _ _ _ _ hw2
  have hlen1 : e1.length = data.length := by
    rw [he1]
    exact length_write_bytes _ _ _ (by simp only [length_u32le]; omega)
  have hmain : e2 = d2 ∧ s0 = s := by
    simp [seq_update, h28, h32, if_neg hc2, hw1, hw2] at h
    exact h
  obtain ⟨he2d, hs0⟩ := hmain
  subst hs0
  refine ⟨cnt, rfl, rfl, by omega, by omega, hb01, hb02, hb41, hb42, by omega, ?_⟩
  rw [← he2d, he2, he1]

theorem writeTimes_length_bound : ∀ (ts : List ℤ) (data : List ℕ) (off : ℕ) (d' : List ℕ),
    writeTimes data off ts = (d', true) →
    ∀ i, i < ts.length → off + 4 * i + 4 ≤ data.length := by
  intro ts
  induction ts with
  | nil =>
    intro data off d' _ i hi
    simp at hi
  | cons t rest ih =>
    intro data off d' h i hi
    simp only [writeTimes] at h
    rcases hw : write_u32 data off t with _ | d1
    · rw [hw] at h; simp at h
    rw [hw] at h
    obtain ⟨_, _, hin, hd1⟩ := write_u32_eq_some _ _ _ _ hw
    have hlen1 : d1.length = data.length := by
      rw [hd1]; exact length_write_bytes _ _ _ (by simp only [length_u32le]; omega)
    match i with
    | 0 => omega
    | Nat.succ i' =>
      have := ih d1 (off + 4) d' h i' (by simp only [List.length_cons] at hi; omega)
      omega

/-- C5 (amended): reapplying an operation with identical parameters after a
first success reproduces the same buffer under two side conditions the
original claim omits: for the quad resizer, the patched buffer's first
signature occurrence must be absent or at the original match offset; for the
derived-mode timing patcher, the sequence descriptor's time fields must not
overlap the sequence metadata header. -/
theorem patch_idempotent_amended :
    (∀ (data : List ℕ) (dia oh : ℚ) (pat P N d1 : List ℕ) (idx : ℕ)
        (ps : List (ℚ × ℚ × ℚ)),
        pack3f (-oh) (-oh) 0 = some pat →
        encf32 (dia / 2) = some P → encf32 (-(dia / 2)) = some N →
        resize_quad data dia oh = (d1, Except.ok (idx, ps)) →
        idx + 156 ≤ data.length →
        (findPat d1 pat = none ∨ findPat d1 pat = some idx) →
        (resize_quad d1 dia oh).1 = d1) ∧
    (∀ (data : List ℕ) (fi du fo : ℤ) (d2 : List ℕ) (times : List ℤ) (s : ℕ) (dur : ℤ),
        patch_incremental data fi du fo = (d2, Except.ok (times, s, dur)) →
        (s + 12 ≤ SEQ_ARRAY_META_OFF ∨ SEQ_ARRAY_META_OFF + 8 ≤ s + 4) →
        patch_incremental d2 fi du fo = (d2, Except.ok (times, s, dur))) := by
  constructor
  · intro data dia oh pat P N d1 idx ps hpat hp hn hr hlen hsecond
    rcases hf : findPat data pat with _ | idx0
    · exact absurd hr (by simp [resize_quad, hpat, hf])
    have hok := resize_quad_ok data dia oh pat idx0 P N hpat hf hp hn
    rw [hok] at hr
    simp only [Prod.mk.injEq, Except.ok.injEq] at hr
    obtain ⟨hW, hidx, hps⟩ := hr
    subst hidx
    rcases hsecond with hs2 | hs2
    · simp only [resize_quad, hpat, hs2]
    have hN : N.length = 4 := length_of_encf32 _ _ hn
    have hP : P.length = 4 := length_of_encf32 _ _ hp
    have l0 : (N ++ N ++ [0, 0, 0, 0] : List ℕ).length = 12 := by simp [hN]
    have l1 : (P ++ N ++ [0, 0, 0, 0] : List ℕ).length = 12 := by simp [hN, hP]
    have l2 : (N ++ P ++ [0, 0, 0, 0] : List ℕ).length = 12 := by simp [hN, hP]
    have l3 : (P ++ P ++ [0, 0, 0, 0] : List ℕ).length = 12 := by simp [hP]
    obtain ⟨hWlen, g0, g1, g2, g3⟩ := resize_writes_getD data
      (N ++ N ++ [0, 0, 0, 0]) (P ++ N ++ [0, 0, 0, 0])
      (N ++ P ++ [0, 0, 0, 0]) (P ++ P ++ [0, 0, 0, 0]) idx0 l0 l1 l2 l3 hlen
    rw [hW] at hWlen g0 g1 g2 g3
    rw [resize_quad_ok d1 dia oh pat idx0 P N hpat hs2 hp hn]
    have s0 : write_bytes d1 idx0 (N ++ N ++ [0, 0, 0, 0]) = d1 :=
      write_bytes_self _ _ _ (by rw [l0, hWlen]; omega)
        (fun k hk => by rw [l0] at hk; exact g0 k hk)
    rw [s0]
    have s1 : write_bytes d1 (idx0 + 48) (P ++ N ++ [0, 0, 0, 0]) = d1 :=
      write_bytes_self _ _ _ (by rw [l1, hWlen]; omega)
        (fun k hk => by rw [l1] at hk; exact g1 k hk)
    rw [s1]
    have s2 : write_bytes d1 (idx0 + 96) (N ++ P ++ [0, 0, 0, 0]) = d1 :=
      write_bytes_self _ _ _ (by rw [l2, hWlen]; omega)
        (fun k hk => by rw [l2] at hk; exact g2 k hk)
    rw [s2]
    have s3 : write_bytes d1 (idx0 + 144) (P ++ P ++ [0, 0, 0, 0]) = d1 :=
      write_bytes_self _ _ _ (by rw [l3, hWlen]; omega)
        (fun k hk => by rw [l3] at hk; exact g3 k hk)
    rw [s3]
  · intro data fi du fo d2 times s dur hr hdisj
    rcases hw : writeTimes data TIMING_ARRAY_OFF (incremental_times fi du fo) with ⟨d1, b⟩
    cases b
    · exact absurd hr (by simp [patch_incremental, hw])
    rcases hsu : seq_update d1 0 (1000 + du + fo) with ⟨dd, r⟩
    rcases r with e | sq
    · exact absurd hr (by simp [patch_incremental, hw, hsu])
    have hinj : dd = d2 ∧ incremental_times fi du fo = times ∧ sq = s ∧ du = dur := by
      simp only [patch_incremental, hw, hsu, Prod.mk.injEq, Except.ok.injEq] at hr
      exact ⟨hr.1, hr.2.1, hr.2.2.1, hr.2.2.2⟩
    obtain ⟨hdd, hT, hsq, hdur⟩ := hinj
    subst hdd
    subst hT
    subst hsq
    subst hdur
    obtain ⟨cnt, hr28, hr32, hcnt, hs0, h00, h0b, h40, h4b, hs12, hdd2⟩ :=
      seq_update_ok_inv d1 0 (1000 + du + fo) dd sq hsu
    obtain ⟨hd1len, hfr1⟩ := writeTimes_frame _ _ _ _ hw
    rw [length_incremental_times] at hfr1
    have hlen_data : TIMING_ARRAY_OFF + 4 * 4 + 4 ≤ data.length :=
      writeTimes_length_bound _ _ _ _ hw 4 (by rw [length_incremental_times]; norm_num)
    have hZl : (u32le (0 : ℤ).toNat).length = 4 := rfl
    have hTl : (u32le (1000 + du + fo).toNat).length = 4 := rfl
    have hlen_i : (write_bytes d1 (sq + 4) (u32le (0 : ℤ).toNat)).length = d1.length :=
      length_write_bytes _ _ _ (by omega)
    have hlen_d2 : dd.length = data.length := by
      rw [hdd2, length_write_bytes _ _ _ (by omega), hlen_i, hd1len]
    obtain ⟨e1, hw2run⟩ := writeTimes_some_of_length (incremental_times fi du fo)
      data dd TIMING_ARRAY_OFF d1 hw (by omega)
    obtain ⟨he1len, hfr2⟩ := writeTimes_frame _ _ _ _ hw2run
    rw [length_incremental_times] at hfr2
    have hdisjn : sq + 12 ≤ 28 ∨ 36 ≤ sq + 4 := by
      rw [SEQ_ARRAY_META_OFF_eq] at hdisj
      omega
    have hTIM : TIMING_ARRAY_OFF = 2784 := TIMING_ARRAY_OFF_eq
    have hSEQ : SEQ_ARRAY_META_OFF = 28 := SEQ_ARRAY_META_OFF_eq
    have hstep2 : ∀ off', 28 ≤ off' ∧ off' + 4 ≤ 36 →
        read_u32 dd off' = read_u32 d1 off' := by
      intro off' hoff'
      rw [hdd2]
      rw [read_u32_write_bytes_frame _ _ _ _ (by omega) (by omega)]
      rw [read_u32_write_bytes_frame _ _ _ _ (by omega) (by omega)]
    have hread28 : read_u32 e1 SEQ_ARRAY_META_OFF = some cnt := by
      have step1 : read_u32 e1 SEQ_ARRAY_META_OFF = read_u32 dd SEQ_ARRAY_META_OFF := by
        apply read_u32_eq_of_getD _ _ _ (by omega)
        intro k hk
        apply hfr2 (SEQ_ARRAY_META_OFF + k) (by omega)
        left
        omega
      rw [step1, hstep2 SEQ_ARRAY_META_OFF (by omega), hr28]
    have hread32 : read_u32 e1 (SEQ_ARRAY_META_OFF + 4) = some sq := by
      have step1 : read_u32 e1 (SEQ_ARRAY_META_OFF + 4) =
          read_u32 dd (SEQ_ARRAY_META_OFF + 4) := by
        apply read_u32_eq_of_getD _ _ _ (by omega)
        intro k hk
        apply hfr2 (SEQ_ARRAY_META_OFF + 4 + k) (by omega)
        left
        omega
      rw [step1, hstep2 (SEQ_ARRAY_META_OFF + 4) (by omega), hr32]
    have hsu2 := seq_update_spec e1 0 (1000 + du + fo) cnt sq hread28 hread32 hcnt hs0
      h00 h0b h40 h4b (by omega)
    have hres2 : patch_incremental dd fi du fo =
        (write_bytes (write_bytes e1 (sq + 4) (u32le (0 : ℤ).toNat)) (sq + 8)
            (u32le (1000 + du + fo).toNat),
          Except.ok (incremental_times fi du fo, sq, du)) := by
      simp only [patch_incremental, hw2run, hsu2]
    rw [hres2]
    have hF1len : (write_bytes e1 (sq + 4) (u32le (0 : ℤ).toNat)).length = e1.length :=
      length_write_bytes _ _ _ (by omega)
    have hkey : write_bytes (write_bytes e1 (sq + 4) (u32le (0 : ℤ).toNat)) (sq + 8)
        (u32le (1000 + du + fo).toNat) = dd := by
      apply eq_of_getD
      · rw [length_write_bytes _ _ _ (by omega), hF1len]
        omega
      · intro j hj
        rw [length_write_bytes _ _ _ (by omega), hF1len] at hj
        have hjd : j < data.length := by omega
        by_cases c2 : sq + 8 ≤ j ∧ j < sq + 12
        · rw [getD_write_bytes_at _ _ _ _ (by omega) c2.1 (by omega)]
          rw [hdd2, getD_write_bytes_at _ _ _ _ (by omega) c2.1 (by omega)]
        · by_cases c1 : sq + 4 ≤ j ∧ j < sq + 8
          · rw [getD_write_bytes_out _ _ _ _ (Or.inl (by omega)) (by omega)]
            rw [getD_write_bytes_at _ _ _ _ (by omega) c1.1 (by omega)]
            rw [hdd2]
            rw [getD_write_bytes_out _ _ _ _ (Or.inl (by omega)) (by omega)]
            rw [getD_write_bytes_at _ _ _ _ (by omega) c1.1 (by omega)]
          · rw [getD_write_bytes_out _ _ _ _ (by omega) (by omega)]
            rw [getD_write_bytes_out _ _ _ _ (by omega) (by omega)]
            rw [hdd2]
            rw [getD_write_bytes_out _ _ _ _ (by omega) (by omega)]
            rw [getD_write_bytes_out _ _ _ _ (by omega) (by omega)]
            by_cases cT : TIMING_ARRAY_OFF ≤ j ∧ j < TIMING_ARRAY_OFF + 20
            · exact writeTimes_getD_indep _ _ _ _ _ _ hw2run hw j cT.1
                (by rw [length_incremental_times]; omega)
            · rw [hfr2 j (by omega) (by omega)]
              rw [hdd2]
              rw [getD_write_bytes_out _ _ _ _ (by omega) (by omega)]
              rw [getD_write_bytes_out _ _ _ _ (by omega) (by omega)]
    rw [hkey]

set_option maxRecDepth 20000 in
unseal Rat.mul Rat.inv Rat.add Rat.sub in
/-- C5 counterexample: on a buffer holding the 12.5 signature at offsets 0 and
36, resizing to diameter 20 succeeds, but a second identical application
patches the surviving occurrence at offset 36 and changes the buffer. -/
theorem resize_quad_not_idempotent_cex :
    (resize_quad quadCexBuf 20 (25 / 2)).2 = Except.ok (0,
      [(-10, -10, 0), (10, -10, 0), (-10, 10, 0), (10, 10, 0)]) ∧
    (resize_quad (resize_quad quadCexBuf 20 (25 / 2)).1 20 (25 / 2)).1 ≠
      (resize_quad quadCexBuf 20 (25 / 2)).1 := by
  constructor
  · rfl
  · decide

set_option maxRecDepth 20000 in
unseal Rat.mul Rat.inv Rat.add Rat.sub in
/-- C5 witness: on a buffer with a single signature occurrence, a second
application leaves the once-patched buffer unchanged. -/
theorem patch_idempotent_amended_witness :
    (resize_quad (resize_quad quadWitBuf 20 (25 / 2)).1 20 (25 / 2)).1 =
      (resize_quad quadWitBuf 20 (25 / 2)).1 :=
  patch_idempotent_amended.1 quadWitBuf 20 (25 / 2) sigBytes
    [0, 0, 32, 65] [0, 0, 32, 193] (resize_quad quadWitBuf 20 (25 / 2)).1 0
    [(-(20 / 2), -(20 / 2), 0), (20 / 2, -(20 / 2), 0),
     (-(20 / 2), 20 / 2, 0), (20 / 2, 20 / 2, 0)]
    (by decide) (by decide) (by decide) rfl (by decide) (Or.inl (by decide))

/-! ## Lemmas about the texture slot rewriter -/

theorem toUpper_toNat_lt (c : Char) (h : c.toNat < 128) : c.toUpper.toNat < 128 := by
  unfold Char.toUpper
  simp only []
  by_cases hc : c.toNat ≥ 97 ∧ c.toNat ≤ 122
  · rw [if_pos hc]
    have hval : (c.toNat - 32).isValidChar := Or.inl (by omega)
    rw [Char.ofNat, dif_pos hval]
    have hdef : c.toNat = c.val.toBitVec.toNat := rfl
    simp only [Char.ofNatAux, Char.toNat, UInt32.toNat, BitVec.toNat_ofNatLt]
    omega
  · rw [if_neg hc]
    exact h

theorem data_full (tex_base : String) :
    ("SPELLS\\" ++ tex_base.toUpper ++ ".BLP").toList =
      "SPELLS\\".toList ++ tex_base.toList.map Char.toUpper ++ ".BLP".toList := by
  have hup : tex_base.toUpper.data = tex_base.data.map Char.toUpper := by
    rw [show tex_base.toUpper = String.map Char.toUpper tex_base from rfl, String.map_eq]
  show ("SPELLS\\" ++ tex_base.toUpper ++ ".BLP").data =
    "SPELLS\\".data ++ tex_base.data.map Char.toUpper ++ ".BLP".data
  rw [String.data_append, String.data_append, hup]

theorem full_ascii (tex_base : String) (h : ∀ c ∈ tex_base.toList, c.toNat < 128) :
    (("SPELLS\\" ++ tex_base.toUpper ++ ".BLP").toList.any fun c => 128 ≤ c.toNat) = false := by
  rw [data_full]
  simp only [List.any_append, Bool.or_eq_false_iff]
  refine ⟨⟨by decide, ?_⟩, by decide⟩
  rw [List.any_eq_false]
  intro x hx
  obtain ⟨c, hc, hxc⟩ := List.mem_map.mp hx
  have hlt := toUpper_toNat_lt c (h c hc)
  have hnot : ¬(128 ≤ x.toNat) := by rw [← hxc]; omega
  simpa using hnot

theorem length_full (tex_base : String) :
    (("SPELLS\\" ++ tex_base.toUpper ++ ".BLP").toList.map Char.toNat ++ [0]).length =
      tex_base.length + 12 := by
  rw [List.length_append, List.length_map, data_full]
  simp only [List.length_append, List.length_map]
  have h1 : ("SPELLS\\".toList).length = 7 := by decide
  have h2 : (".BLP".toList).length = 4 := by decide
  have h3 : tex_base.toList.length = tex_base.length := rfl
  rw [h1, h2, h3]
  simp only [List.length_cons, List.length_nil]
  omega

theorem length_zeroRange : ∀ (k : ℕ) (data : List ℕ) (a : ℕ),
    (zeroRange data a k).length = data.length := by
  intro k
  induction k with
  | zero => intro data a; rfl
  | succ k ih =>
    intro data a
    show (zeroRange (data.set a 0) (a + 1) k).length = data.length
    rw [ih, List.length_set]

theorem getD_set_ne (data : List ℕ) (v a j : ℕ) (h : a ≠ j) :
    (data.set a v).getD j 0 = data.getD j 0 := by
  simp only [List.getD_eq_getElem?_getD, List.getElem?_set_ne h]

theorem getD_set_self (data : List ℕ) (v a : ℕ) (h : a < data.length) :
    (data.set a v).getD a 0 = v := by
  simp only [List.getD_eq_getElem?_getD, List.getElem?_set_self h, Option.getD_some]

theorem getD_zeroRange_out : ∀ (k : ℕ) (data : List ℕ) (a j : ℕ),
    (j < a ∨ a + k ≤ j) → (zeroRange data a k).getD j 0 = data.getD j 0 := by
  intro k
  induction k with
  | zero => intro data a j _; rfl
  | succ k ih =>
    intro data a j hj
    show (zeroRange (data.set a 0) (a + 1) k).getD j 0 = data.getD j 0
    rw [ih (data.set a 0) (a + 1) j (by omega), getD_set_ne _ _ _ _ (by omega)]

theorem getD_zeroRange_in : ∀ (k : ℕ) (data : List ℕ) (a j : ℕ),
    a ≤ j → j < a + k → j < data.length → (zeroRange data a k).getD j 0 = 0 := by
  intro k
  induction k with
  | zero => intro data a j _ h2 _; omega
  | succ k ih =>
    intro data a j h1 h2 h3
    show (zeroRange (data.set a 0) (a + 1) k).getD j 0 = 0
    by_cases hja : j = a
    · subst hja
      rw [getD_zeroRange_out k _ _ _ (Or.inl (by omega)), getD_set_self _ _ _ h3]
    · exact ih (data.set a 0) (a + 1) j (by omega) (by omega) (by rw [List.length_set]; omega)

theorem takeWhile_length_lt : ∀ (l : List ℕ), l.contains 0 = true →
    (l.takeWhile fun b => b ≠ 0).length < l.length := by
  intro l
  induction l with
  | nil => intro h; simp at h
  | cons a as ih =>
    intro h
    by_cases ha : a = 0
    · subst ha
      simp [List.takeWhile_cons]
    · have hcontains : as.contains 0 = true := by
        simp only [List.contains_cons] at h
        rcases Bool.or_eq_true_iff.mp h with h1 | h1
        · exact absurd (Nat.eq_of_beq_eq_true (by simpa using h1)) (by omega)
        · exact h1
      rw [List.takeWhile_cons, if_pos (by simpa using ha)]
      simp only [List.length_cons]
      exact Nat.succ_lt_succ (ih hcontains)

theorem read_str_eq (data : List ℕ)
    (hnull : (data.drop TEXTURE_NAME_OFF).contains 0 = true)
    (hprev : ∀ b ∈ (data.drop TEXTURE_NAME_OFF).takeWhile (fun b => b ≠ 0), b < 128) :
    read_str data TEXTURE_NAME_OFF =
      (data.drop TEXTURE_NAME_OFF).takeWhile (fun b => b ≠ 0) := by
  unfold read_str
  dsimp only
  rw [hnull]
  simp only [if_true]
  rw [List.filter_eq_self.mpr]
  intro b hb
  simpa using hprev b hb

theorem patch_texture_run (data : List ℕ) (tex_base : String)
    (hlen : tex_base.length ≤ 20)
    (hascii : ∀ c ∈ tex_base.toList, c.toNat < 128) :
    patch_texture data tex_base =
      (zeroRange (write_bytes data TEXTURE_NAME_OFF
          (("SPELLS\\" ++ tex_base.toUpper ++ ".BLP").toList.map Char.toNat ++ [0]))
        (TEXTURE_NAME_OFF +
          (("SPELLS\\" ++ tex_base.toUpper ++ ".BLP").toList.map Char.toNat ++ [0]).length)
        ((read_str data TEXTURE_NAME_OFF).length + 1 -
          (("SPELLS\\" ++ tex_base.toUpper ++ ".BLP").toList.map Char.toNat ++ [0]).length),
       Except.ok (read_str data TEXTURE_NAME_OFF)) := by
  have hne : ¬(20 < tex_base.length) := by omega
  simp only [patch_texture, if_neg hne, full_ascii tex_base hascii, Bool.false_eq_true,
    if_false]

/-- C3: for a slot holding a null-terminated ASCII previous string and an
ASCII base name of at most 20 characters, the rewriter succeeds: it returns
the previous string, the slot then holds the ASCII bytes of `SPELLS\` +
uppercase(base) + `.BLP` with a null terminator, and the rest of the previous
string's extent (terminator included) is zeroed; a base name longer than 20
characters fails with `invalidArgument`. -/
theorem patch_texture_spec :
    (∀ (data : List ℕ) (tex_base : String),
      tex_base.length ≤ 20 →
      (∀ c ∈ tex_base.toList, c.toNat < 128) →
      (data.drop TEXTURE_NAME_OFF).contains 0 = true →
      (∀ b ∈ (data.drop TEXTURE_NAME_OFF).takeWhile (fun b => b ≠ 0), b < 128) →
      (patch_texture data tex_base).2 =
        Except.ok ((data.drop TEXTURE_NAME_OFF).takeWhile (fun b => b ≠ 0)) ∧
      (∀ k, k < (("SPELLS\\" ++ tex_base.toUpper ++ ".BLP").toList.map Char.toNat
          ++ [0]).length →
        (patch_texture data tex_base).1.getD (TEXTURE_NAME_OFF + k) 0 =
          (("SPELLS\\" ++ tex_base.toUpper ++ ".BLP").toList.map Char.toNat
            ++ [0]).getD k 0) ∧
      (∀ k, (("SPELLS\\" ++ tex_base.toUpper ++ ".BLP").toList.map Char.toNat
          ++ [0]).length ≤ k →
        k < ((data.drop TEXTURE_NAME_OFF).takeWhile (fun b => b ≠ 0)).length + 1 →
        (patch_texture data tex_base).1.getD (TEXTURE_NAME_OFF + k) 0 = 0)) ∧
    (∀ (data : List ℕ) (tex_base : String), 20 < tex_base.length →
      patch_texture data tex_base = (data, Except.error Err.invalidArgument)) := by
  constructor
  · intro data tex_base hlen hascii hnull hprev
    have hrun := patch_texture_run data tex_base hlen hascii
    have hrs := read_str_eq data hnull hprev
    have htw := takeWhile_length_lt (data.drop TEXTURE_NAME_OFF) hnull
    have hdl : (data.drop TEXTURE_NAME_OFF).length = data.length - TEXTURE_NAME_OFF :=
      List.length_drop _ _
    rw [hrun, hrs]
    have hge := length_write_bytes_ge data
      (("SPELLS\\" ++ tex_base.toUpper ++ ".BLP").toList.map Char.toNat ++ [0])
      TEXTURE_NAME_OFF
    refine ⟨rfl, ?_, ?_⟩
    · intro k hk
      rw [getD_zeroRange_out _ _ _ _ (Or.inl (by omega))]
      exact getD_write_bytes_in data _ TEXTURE_NAME_OFF k (by omega) hk
    · intro k h1 h2
      apply getD_zeroRange_in
      · omega
      · omega
      · omega
  · intro data tex_base h
    simp only [patch_texture, if_pos h]

/-- C10: the frame of the texture rewriter: under the same success conditions
the new string occupies base-length + 12 bytes, the previous string is
returned, and every byte of the buffer outside
`[0xA90, 0xA90 + max(new_len, old_len))` is unchanged. -/
theorem patch_texture_frame (data : List ℕ) (tex_base : String)
    (hlen : tex_base.length ≤ 20)
    (hascii : ∀ c ∈ tex_base.toList, c.toNat < 128)
    (hnull : (data.drop TEXTURE_NAME_OFF).contains 0 = true)
    (hprev : ∀ b ∈ (data.drop TEXTURE_NAME_OFF).takeWhile (fun b => b ≠ 0), b < 128) :
    (patch_texture data tex_base).2 =
      Except.ok ((data.drop TEXTURE_NAME_OFF).takeWhile (fun b => b ≠ 0)) ∧
    (("SPELLS\\" ++ tex_base.toUpper ++ ".BLP").toList.map Char.toNat ++ [0]).length =
      tex_base.length + 12 ∧
    (∀ j, j < data.length →
      (j < TEXTURE_NAME_OFF ∨
        TEXTURE_NAME_OFF + max (tex_base.length + 12)
          (((data.drop TEXTURE_NAME_OFF).takeWhile (fun b => b ≠ 0)).length + 1) ≤ j) →
      (patch_texture data tex_base).1.getD j 0 = data.getD j 0) := by
  have hrun := patch_texture_run data tex_base hlen hascii
  have hrs := read_str_eq data hnull hprev
  have hlf := length_full tex_base
  rw [hrun, hrs]
  refine ⟨rfl, hlf, ?_⟩
  intro j hj hout
  rw [getD_zeroRange_out _ _ _ _ (by omega)]
  exact getD_write_bytes_out data _ TEXTURE_NAME_OFF j (by omega) hj

theorem texWitBuf_drop : List.drop TEXTURE_NAME_OFF texWitBuf =
    texPrevBytes ++ [0] ++ List.replicate 50 1 := by
  rw [TEXTURE_NAME_OFF_eq]
  unfold texWitBuf
  rw [List.append_assoc, List.append_assoc]
  rw [List.drop_left' (List.length_replicate _ _), ← List.append_assoc]

theorem texWitBuf_prev :
    (texWitBuf.drop TEXTURE_NAME_OFF).takeWhile (fun b => b ≠ 0) = texPrevBytes := by
  show (List.drop TEXTURE_NAME_OFF texWitBuf).takeWhile (fun b => b ≠ 0) = texPrevBytes
  rw [texWitBuf_drop]
  decide

theorem texWitBuf_contains : (texWitBuf.drop TEXTURE_NAME_OFF).contains 0 = true := by
  show (List.drop TEXTURE_NAME_OFF texWitBuf).contains 0 = true
  rw [texWitBuf_drop]
  decide

/-- C3 witness: base name FIREBALL on a buffer holding the stock path. -/
theorem patch_texture_spec_witness :
    (patch_texture texWitBuf ("FIREBALL")).2 = Except.ok texPrevBytes ∧
    (patch_texture texWitBuf ("FIREBALL")).1.getD TEXTURE_NAME_OFF 0 = 83 ∧
    (patch_texture texWitBuf ("FIREBALL")).1.getD (TEXTURE_NAME_OFF + 20) 0 = 0 := by
  have h := patch_texture_spec.1 texWitBuf ("FIREBALL") (by decide) (by decide)
    texWitBuf_contains
    (by rw [texWitBuf_prev]; decide)
  refine ⟨?_, ?_, ?_⟩
  · have h1 := h.1
    rw [texWitBuf_prev] at h1
    exact h1
  · have h2 := h.2.1 0 (by rw [length_full]; decide)
    rw [Nat.add_zero] at h2
    rw [h2, data_full]
    decide
  · exact h.2.2 20 (by rw [length_full]; decide)
      (by rw [texWitBuf_prev]; decide)

theorem texWitBuf_length : texWitBuf.length = 2780 := by
  have h25 : texPrevBytes.length = 25 := by decide
  unfold texWitBuf
  simp only [List.length_append, List.length_replicate, h25, List.length_cons,
    List.length_nil]

/-- C10 witness: byte 100, far below the slot, is untouched. -/
theorem patch_texture_frame_witness :
    (patch_texture texWitBuf ("FIREBALL")).1.getD 100 0 = texWitBuf.getD 100 0 := by
  exact (patch_texture_frame texWitBuf ("FIREBALL") (by decide) (by decide)
    texWitBuf_contains (by rw [texWitBuf_prev]; decide)).2.2 100
    (by rw [texWitBuf_length]; norm_num) (Or.inl (by decide))

end CreateZone
